import Mathlib

/-!
Verification of cmdsproc.py (the fb-adb command-description processor).

The file shallowly embeds the parts of the program the claims are about:
  * the C-literal quoting helpers of CWriter (char_literal, quote_char,
    quote_string),
  * the intermediate representation (Option, OptGroup, Argument, Command)
    and its mutation operations (OptGroup.add_option, Command.add_optgroup,
    Command.add_argument),
  * the conditional-compilation core of UsageFileReader (level counting
    and the ifdef stack),
  * the line-oriented C emitters for the autocmds registry and for the
    static option tables of parse_args_cmd_*,
  * the documentation walker PodGeneratingReader (paragraph buffering,
    escaping, section buffering and the section-contents map).

Python strings are modelled as Lean String, Python lists as List, Python
sets of strings as membership-checked Lists, Python dicts as insertion
ordered association lists, fatal `die` calls as Except.error.
-/

/-! ### Small string helpers shared by the embedding -/

/-- Characters matched by the Python regex class [ \t\r\n\v] used in
ONLYWS and PodGeneratingReader.WSRUNS (note: no form feed). -/
def wsChar (c : Char) : Bool :=
  c = ' ' || c = '\t' || c = '\r' || c = '\n' || c = Char.ofNat 11

/-- Characters stripped by Python str.strip() on ASCII input
(space, tab, newline, carriage return, vertical tab, form feed). -/
def pySpace (c : Char) : Bool :=
  c = ' ' || c = '\t' || c = '\n' || c = '\r' || c = Char.ofNat 11 ||
    c = Char.ofNat 12

/-- The substitution re.sub("[ \t\r\n\v]+", " ", s) on a character list:
every maximal run of whitespace characters becomes a single space. -/
def wsCollapseList : List Char → List Char
  | [] => []
  | [c] => if wsChar c then [' '] else [c]
  | c1 :: c2 :: rest =>
    if wsChar c1 && wsChar c2 then wsCollapseList (c2 :: rest)
    else (if wsChar c1 then ' ' else c1) :: wsCollapseList (c2 :: rest)

/-- re.sub("[ \t\r\n\v]+", " ", s) on a String. -/
def wsCollapse (s : String) : String := ⟨wsCollapseList s.data⟩

/-- Python str.strip(). -/
def pyStrip (s : String) : String :=
  ⟨((s.data.dropWhile pySpace).reverse.dropWhile pySpace).reverse⟩

/-- Python str.lstrip(). -/
def pyLstrip (s : String) : String := ⟨s.data.dropWhile pySpace⟩

/-- Python str.upper() restricted to ASCII case mapping. -/
def pyUpper (s : String) : String := ⟨s.data.map Char.toUpper⟩

/-- Decide whether the character list needle occurs at the head of hay. -/
def leadsWith : List Char → List Char → Bool
  | _, [] => true
  | [], _ :: _ => false
  | a :: as, b :: bs => a = b && leadsWith as bs

/-- Decide whether needle occurs contiguously anywhere inside hay. -/
def hasSubChars : List Char → List Char → Bool
  | [], needle => needle.isEmpty
  | a :: as, needle => leadsWith (a :: as) needle || hasSubChars as needle

/-! ### CWriter C-literal quoting (cmdsproc.py lines 455-471)

char_literal receives a one-character string and the active quote
character; we model one-character strings as Char. -/

/-- The backslash character. -/
def bslash : Char := Char.ofNat 92

/-- The double-quote character. -/
def dquote : Char := Char.ofNat 34

/-- The single-quote character. -/
def squote : Char := Char.ofNat 39

/-- One octal digit character for d < 8. -/
def octDigitChar (d : Nat) : Char := Char.ofNat (48 + d)

/-- The formatting "\%03o" % n for n below 512: a backslash followed by
exactly three octal digits. -/
def octEscape (n : Nat) : List Char :=
  [bslash, octDigitChar (n / 64), octDigitChar (n / 8 % 8), octDigitChar (n % 8)]

/-- CWriter.char_literal: the active quote character and backslash get a
one-character backslash escape; bytes at most 0x1F and the byte 0x7F get a
three-digit octal escape; everything else passes through verbatim. -/
def charLiteral (quote : Char) (c : Char) : List Char :=
  if c = quote || c = bslash then [bslash, c]
  else if c.toNat ≤ 0x1f || c.toNat = 0x7f then octEscape c.toNat
  else [c]

/-- CWriter.quote_char. -/
def quoteChar (c : Char) : String :=
  ⟨squote :: (charLiteral squote c ++ [squote])⟩

/-- CWriter.quote_string. -/
def quoteString (s : String) : String :=
  ⟨dquote :: (s.data.flatMap (charLiteral dquote) ++ [dquote])⟩

/-! ### A model of re-parsing a C string literal

The decoder follows the C lexer's rules for the escapes the emitter can
produce: a backslash followed by one to three octal digits denotes the
byte they spell (the lexer consumes at most three digits), a backslash
followed by a quote character or a backslash denotes that character, a
bare double quote closes the literal, and any other character denotes
itself. Escapes the emitter never produces are rejected. -/

/-- Octal digit test. -/
def isOctDigit (c : Char) : Bool := 48 ≤ c.toNat && c.toNat ≤ 55

/-- Value of an octal digit character. -/
def octVal (c : Char) : Nat := c.toNat - 48

/-- Decode the character sequence following a backslash: one to three
octal digits denote the code point they spell (the C lexer consumes at
most three), a quote character or a backslash denotes itself, anything
else (an escape the emitter never produces) is rejected. Returns the
decoded character and the unconsumed remainder. -/
def decodeEsc : List Char → Option (Char × List Char)
  | [] => none
  | d1 :: r1 =>
    if isOctDigit d1 then
      match r1 with
      | [] => some (Char.ofNat (octVal d1), [])
      | d2 :: r2 =>
        if isOctDigit d2 then
          match r2 with
          | [] => some (Char.ofNat (octVal d1 * 8 + octVal d2), [])
          | d3 :: r3 =>
            if isOctDigit d3 then
              some (Char.ofNat (octVal d1 * 64 + octVal d2 * 8 + octVal d3), r3)
            else some (Char.ofNat (octVal d1 * 8 + octVal d2), d3 :: r3)
        else some (Char.ofNat (octVal d1), d2 :: r2)
    else if d1 = dquote || d1 = bslash || d1 = squote then some (d1, r1)
    else none

theorem decodeEsc_length {l : List Char} {ch : Char} {r : List Char}
    (h : decodeEsc l = some (ch, r)) : r.length < l.length := by
  match l with
  | [] => simp [decodeEsc] at h
  | [d1] =>
    simp only [decodeEsc] at h
    repeat' split at h
    all_goals simp only [Option.some.injEq, Prod.mk.injEq, reduceCtorEq] at h
    all_goals obtain ⟨-, rfl⟩ := h
    all_goals simp
  | [d1, d2] =>
    simp only [decodeEsc] at h
    repeat' split at h
    all_goals simp only [Option.some.injEq, Prod.mk.injEq, reduceCtorEq] at h
    all_goals obtain ⟨-, rfl⟩ := h
    all_goals simp
  | d1 :: d2 :: d3 :: r3 =>
    simp only [decodeEsc] at h
    repeat' split at h
    all_goals simp only [Option.some.injEq, Prod.mk.injEq, reduceCtorEq] at h
    all_goals obtain ⟨-, rfl⟩ := h
    all_goals simp only [List.length_cons]
    all_goals omega

/-- Decode the body of a C string literal (everything after the opening
double quote, including the closing double quote), with explicit fuel;
each step consumes at least one character, so fuel equal to the length
of the input suffices. -/
def decodeBodyF : Nat → List Char → Option (List Char)
  | 0, _ => none
  | _ + 1, [] => none
  | fuel + 1, c :: rest =>
    if c = dquote then (if rest.isEmpty then some [] else none)
    else if c = bslash then
      (decodeEsc rest).bind (fun p => (decodeBodyF fuel p.2).map (fun t => p.1 :: t))
    else (decodeBodyF fuel rest).map (fun t => c :: t)

/-- Decode the body of a C string literal. -/
def decodeBody (l : List Char) : Option (List Char) := decodeBodyF l.length l

theorem decodeBodyF_congr : ∀ (f1 f2 : Nat) (l : List Char),
    l.length ≤ f1 → l.length ≤ f2 → decodeBodyF f1 l = decodeBodyF f2 l := by
  intro f1
  induction f1 with
  | zero =>
    intro f2 l h1 _
    have : l = [] := List.length_eq_zero.mp (Nat.le_zero.mp h1)
    subst this
    cases f2 <;> rfl
  | succ f1 ih =>
    intro f2 l h1 h2
    cases l with
    | nil => cases f2 <;> rfl
    | cons c rest =>
      cases f2 with
      | zero => simp at h2
      | succ g =>
        simp only [List.length_cons] at h1 h2
        simp only [decodeBodyF]
        by_cases hd : c = dquote
        · rw [if_pos hd, if_pos hd]
        · rw [if_neg hd, if_neg hd]
          by_cases hc : c = bslash
          · rw [if_pos hc, if_pos hc]
            refine Option.bind_congr (fun p hp => ?_)
            have hr := decodeEsc_length (Option.mem_def.mp hp)
            rw [ih g p.2 (by omega) (by omega)]
          · rw [if_neg hc, if_neg hc, ih g rest (by omega) (by omega)]

theorem decodeBody_step (c : Char) (rest : List Char) :
    decodeBody (c :: rest) =
      if c = dquote then (if rest.isEmpty then some [] else none)
      else if c = bslash then
        (decodeEsc rest).bind (fun p => (decodeBody p.2).map (fun t => p.1 :: t))
      else (decodeBody rest).map (fun t => c :: t) := by
  show decodeBodyF (rest.length + 1) (c :: rest) = _
  simp only [decodeBodyF, decodeBody]
  by_cases hd : c = dquote
  · rw [if_pos hd, if_pos hd]
  · rw [if_neg hd, if_neg hd]
    by_cases hc : c = bslash
    · rw [if_pos hc, if_pos hc]
      refine Option.bind_congr (fun p hp => ?_)
      have hr := decodeEsc_length (Option.mem_def.mp hp)
      rw [decodeBodyF_congr rest.length p.2.length p.2 (by omega) (by omega)]
    · rw [if_neg hc, if_neg hc]

/-- Re-parse a full C string literal: an opening double quote, the body,
the closing double quote. -/
def reparseCStringLiteral (s : String) : Option String :=
  match s.data with
  | c :: rest => if c = dquote then (decodeBody rest).map (fun l => ⟨l⟩) else none
  | [] => none

/-! Round-trip lemmas for the quoting law. -/

theorem isOctDigit_octDigitChar {d : Nat} (h : d < 8) :
    isOctDigit (octDigitChar d) = true := by
  interval_cases d <;> decide

theorem octVal_octDigitChar {d : Nat} (h : d < 8) :
    octVal (octDigitChar d) = d := by
  interval_cases d <;> decide

theorem decodeBody_closing : decodeBody [dquote] = some [] := by
  rfl

theorem decodeBody_esc {rest : List Char} {ch : Char} {r : List Char}
    (h : decodeEsc rest = some (ch, r)) :
    decodeBody (bslash :: rest) = (decodeBody r).map (fun t => ch :: t) := by
  rw [decodeBody_step]
  have h1 : ¬ (bslash = dquote) := by decide
  rw [if_neg h1, if_pos rfl, h]
  rfl

theorem decodeBody_verbatim {c : Char} (rest : List Char)
    (h1 : ¬ c = dquote) (h2 : ¬ c = bslash) :
    decodeBody (c :: rest) = (decodeBody rest).map (fun t => c :: t) := by
  rw [decodeBody_step, if_neg h1, if_neg h2]

theorem decodeBody_append {tail : List Char} (c : Char) (rest : List Char)
    (ih : decodeBody rest = some tail) :
    decodeBody (charLiteral dquote c ++ rest) = some (c :: tail) := by
  by_cases hq : c = dquote ∨ c = bslash
  · -- one-character backslash escape
    have hcd : isOctDigit c = false := by
      rcases hq with h | h <;> subst h <;> decide
    have hqb : (c = dquote || c = bslash) = true := by
      rcases hq with h | h <;> simp [h]
    have hesc : decodeEsc (c :: rest) = some (c, rest) := by
      simp only [decodeEsc, hcd, Bool.false_eq_true, if_false]
      have hsq : (c = dquote || c = bslash || c = squote) = true := by
        simp only [Bool.or_eq_true] at hqb ⊢
        exact Or.inl hqb
      simp only [hsq, if_true]
    simp only [charLiteral, hqb, if_true, List.cons_append, List.nil_append]
    rw [decodeBody_esc hesc, ih]
    rfl
  · push_neg at hq
    obtain ⟨hqd, hqb⟩ := hq
    have hqor : (c = dquote || c = bslash) = false := by
      simp [hqd, hqb]
    by_cases hc : (decide (c.toNat ≤ 0x1f) || decide (c.toNat = 0x7f)) = true
    · -- three-digit octal escape
      have hlt : c.toNat < 0x80 := by
        rcases Bool.or_eq_true_iff.mp hc with h | h
        · have := of_decide_eq_true h; omega
        · have := of_decide_eq_true h; omega
      have h1 : isOctDigit (octDigitChar (c.toNat / 64)) = true :=
        isOctDigit_octDigitChar (by omega)
      have h2 : isOctDigit (octDigitChar (c.toNat / 8 % 8)) = true :=
        isOctDigit_octDigitChar (by omega)
      have h3 : isOctDigit (octDigitChar (c.toNat % 8)) = true :=
        isOctDigit_octDigitChar (by omega)
      have hesc : decodeEsc (octDigitChar (c.toNat / 64) :: octDigitChar (c.toNat / 8 % 8) ::
          octDigitChar (c.toNat % 8) :: rest) = some (c, rest) := by
        simp only [decodeEsc, h1, h2, h3, if_true]
        rw [octVal_octDigitChar (by omega), octVal_octDigitChar (by omega),
          octVal_octDigitChar (by omega)]
        have hval : c.toNat / 64 * 64 + c.toNat / 8 % 8 * 8 + c.toNat % 8 = c.toNat := by
          omega
        rw [hval, Char.ofNat_toNat]
      simp only [charLiteral, hqor, Bool.false_eq_true, if_false, hc, if_true,
        octEscape, List.cons_append, List.nil_append]
      rw [decodeBody_esc hesc, ih]
      rfl
    · -- verbatim
      have hc' : (decide (c.toNat ≤ 0x1f) || decide (c.toNat = 0x7f)) = false := by
        simpa using hc
      simp only [charLiteral, hqor, Bool.false_eq_true, if_false, hc',
        List.cons_append, List.nil_append]
      rw [decodeBody_verbatim _ hqd hqb, ih]
      rfl

theorem decodeBody_flatMap (s : List Char) :
    decodeBody (s.flatMap (charLiteral dquote) ++ [dquote]) = some s := by
  induction s with
  | nil =>
    rw [List.flatMap_nil, List.nil_append]
    exact decodeBody_closing
  | cons c rest ih =>
    rw [List.flatMap_cons, List.append_assoc]
    exact decodeBody_append c _ ih

/-! ### The intermediate representation (cmdsproc.py lines 118-264)

Python one-character strings become Char, Python sets of tagged key
strings become Lists queried only through membership, fatal die calls
become Except.error. The key strings "long:x" / "short:x" / "symbol:x"
built by OptGroup.add_option are modelled by the tagged type OptKey
(the string tagging is injective, so set operations agree). The
option.optgroup back-pointer set by add_option is not needed by any
claim and is omitted. -/

/-- A tagged option key: the source writes these as the strings
"long:" + long, "short:" + short and "symbol:" + symbol. -/
inductive OptKey where
  | long (s : String)
  | short (c : Char)
  | symbol (s : String)
deriving DecidableEq

/-- Option (cmdsproc.py line 232): short is a one-character string in
the source, checked by the constructor, and modelled here as Char. -/
structure POption where
  short : Option Char
  long : String
  symbol : String
  arg : Option String
  type : Option String
  accumulate : Option String
deriving DecidableEq

/-- Python str.replace("-", "_") for the name-to-symbol derivations. -/
def dashToUnderscore (s : String) : String :=
  ⟨s.data.map (fun c => if c = '-' then '_' else c)⟩

/-- Option.__init__: symbol is the long name with dashes mapped to
underscores. The identifier-syntax validations of the constructor are
orthogonal to the claims and not modelled. -/
def mkPOption (short : Option Char) (long : String) (arg : Option String)
    (type : Option String) (accumulate : Option String) : Except String POption :=
  if arg.isNone && type.isSome then .error "cannot specify type without arg"
  else .ok { short := short, long := long, symbol := dashToUnderscore long,
             arg := arg, type := type, accumulate := accumulate }

/-- The tagged keys of one option, as built by OptGroup.add_option:
new_options = set of "long:"+long and "symbol:"+symbol, plus
"short:"+short when a short name is present. -/
def optionKeys (o : POption) : List OptKey :=
  [.long o.long, .symbol o.symbol] ++
    (match o.short with
     | some c => [.short c]
     | none => [])

/-- Argument (cmdsproc.py line 255); rep stands for the source attribute
named repeat (a reserved word here). -/
structure PArgument where
  name : String
  symbol : String
  type : String
  rep : Bool
  optional : Bool
deriving DecidableEq

/-- Argument.__init__. -/
def mkPArgument (name : String) (type : String) (rep optional : Bool) : PArgument :=
  { name := name, symbol := dashToUnderscore name, type := type,
    rep := rep, optional := optional }

/-- OptGroup (cmdsproc.py line 194); og_private stands for the source
attribute named private (a reserved word here). -/
structure OptGroup' where
  name : String
  symbol : String
  forward : Bool
  export_emit_args : Bool
  known_options : List OptKey
  accumulations : List String
  options : List POption
  og_private : Bool
  human : Option String
deriving DecidableEq

/-- OptGroup.__init__ (private is set separately by the reader, as in
the source where on_optgroup_start assigns og.private afterwards). -/
def mkOptGroup (name : String) (forward export_emit_args : Bool)
    (human : Option String) : OptGroup' :=
  { name := name, symbol := name, forward := forward,
    export_emit_args := export_emit_args, known_options := [],
    accumulations := [], options := [], og_private := false, human := human }

/-- Membership test on a modelled Python set. -/
def keyMem (k : OptKey) (s : List OptKey) : Bool := s.any (fun k2 => k = k2)

/-- Nonempty-intersection test of two modelled Python sets, as in
`new_options & self.known_options`. -/
def keysIntersect (a b : List OptKey) : Bool := a.any (fun k => keyMem k b)

/-- Python set.add for the accumulations set of identifiers. -/
def setAddStr (s : List String) (x : String) : List String :=
  if s.any (fun y => x = y) then s else s ++ [x]

/-- OptGroup.add_option (cmdsproc.py lines 216-227). -/
def addOption (og : OptGroup') (o : POption) : Except String OptGroup' :=
  let newKeys := optionKeys o
  if keysIntersect newKeys og.known_options then .error "conflicting options"
  else .ok { og with
    known_options := og.known_options ++ newKeys,
    options := og.options ++ [o],
    accumulations := match o.accumulate with
      | some a => setAddStr og.accumulations a
      | none => og.accumulations }

/-- Command (cmdsproc.py line 118). -/
structure Command' where
  name : String
  symbol : String
  altnames : List String
  export_parse_args : Bool
  optgroups : List OptGroup'
  known_arguments : List String
  arguments : List PArgument
deriving DecidableEq

/-- Command.__init__. -/
def mkCommand (name symbol : String) (altnames : List String)
    (export_parse_args : Bool) : Command' :=
  { name := name, symbol := symbol, altnames := altnames,
    export_parse_args := export_parse_args, optgroups := [],
    known_arguments := [], arguments := [] }

/-- Command.allnames (cmdsproc.py line 128). -/
def allnames (c : Command') : List String := c.name :: c.altnames

/-- Command.iter_options (cmdsproc.py line 131): every option of every
attached optgroup, in declaration order. -/
def iterOptions (c : Command') : List POption :=
  c.optgroups.flatMap (fun og => og.options)

/-- Command.add_optgroup (cmdsproc.py lines 168-175): fatal when the new
group's key set intersects the key set of any already-attached group. -/
def addOptgroup (c : Command') (og : OptGroup') : Except String Command' :=
  if c.optgroups.any (fun ex => keysIntersect ex.known_options og.known_options) then
    .error "optgroup conflicts with optgroup"
  else .ok { c with optgroups := c.optgroups ++ [og] }

/-- Command.add_argument (cmdsproc.py lines 177-187). -/
def addArgument (c : Command') (a : PArgument) : Except String Command' :=
  if c.known_arguments.any (fun n => a.name = n) then
    .error "duplicate argument name"
  else
    match c.arguments.getLast? with
    | some la =>
      if la.optional && !a.optional then
        .error "mandatory argument follows optional argument"
      else if la.rep then
        .error "if argument is repeated, it must be last"
      else .ok { c with arguments := c.arguments ++ [a],
                        known_arguments := c.known_arguments ++ [a.name] }
    | none => .ok { c with arguments := c.arguments ++ [a],
                           known_arguments := c.known_arguments ++ [a.name] }

/-- The optgroups reachable by a sequence of successful add_option calls
on a freshly constructed OptGroup: exactly what the ingest reader can
produce before the group is attached (options are only added while the
group scope is open, attachment happens at its end). -/
inductive OGBuilt : OptGroup' → Prop where
  | init (name : String) (forward export_emit_args : Bool)
      (human : Option String) (priv : Bool) :
      OGBuilt { mkOptGroup name forward export_emit_args human with og_private := priv }
  | step {og og' : OptGroup'} (o : POption) :
      OGBuilt og → addOption og o = .ok og' → OGBuilt og'

/-- The commands reachable by successful add_optgroup / add_argument
calls in any order, each attached group itself fully built: exactly what
a successful ingest produces. -/
inductive CmdBuilt : Command' → Prop where
  | init (name symbol : String) (altnames : List String) (epa : Bool) :
      CmdBuilt (mkCommand name symbol altnames epa)
  | addOG {c c' : Command'} {og : OptGroup'} :
      CmdBuilt c → OGBuilt og → addOptgroup c og = .ok c' → CmdBuilt c'
  | addArg {c c' : Command'} (a : PArgument) :
      CmdBuilt c → addArgument c a = .ok c' → CmdBuilt c'

/-! ### Set-model lemmas and invariants of the built IR -/

theorem keyMem_iff {k : OptKey} {s : List OptKey} : keyMem k s = true ↔ k ∈ s := by
  simp only [keyMem, List.any_eq_true, decide_eq_true_eq]
  constructor
  · rintro ⟨k2, hk2, rfl⟩
    exact hk2
  · intro hk
    exact ⟨k, hk, rfl⟩

theorem keysIntersect_iff {a b : List OptKey} :
    keysIntersect a b = true ↔ ∃ k, k ∈ a ∧ k ∈ b := by
  simp only [keysIntersect, List.any_eq_true, keyMem_iff]

/-- The tagged keys of a whole group, option by option in declaration
order. -/
def ogKeys (og : OptGroup') : List OptKey := og.options.flatMap optionKeys

theorem optionKeys_nodup (o : POption) : (optionKeys o).Nodup := by
  cases h : o.short <;> simp [optionKeys, h]

theorem addOption_ok {og og' : OptGroup'} {o : POption}
    (h : addOption og o = .ok og') :
    keysIntersect (optionKeys o) og.known_options = false ∧
    og' = { og with
      known_options := og.known_options ++ optionKeys o,
      options := og.options ++ [o],
      accumulations := match o.accumulate with
        | some a => setAddStr og.accumulations a
        | none => og.accumulations } := by
  unfold addOption at h
  by_cases hx : keysIntersect (optionKeys o) og.known_options = true
  · rw [if_pos hx] at h
    exact absurd h (by simp)
  · rw [if_neg hx] at h
    refine ⟨by simpa using hx, ?_⟩
    simpa using h.symm

theorem addOptgroup_ok {c c' : Command'} {og : OptGroup'}
    (h : addOptgroup c og = .ok c') :
    (∀ ex ∈ c.optgroups, keysIntersect ex.known_options og.known_options = false) ∧
    c' = { c with optgroups := c.optgroups ++ [og] } := by
  unfold addOptgroup at h
  by_cases hx : (c.optgroups.any fun ex =>
      keysIntersect ex.known_options og.known_options) = true
  · rw [if_pos hx] at h
    exact absurd h (by simp)
  · rw [if_neg hx] at h
    refine ⟨fun ex hex => ?_, by simpa using h.symm⟩
    by_contra hcon
    exact hx (List.any_eq_true.mpr ⟨ex, hex, by simpa using hcon⟩)

theorem addArgument_ok {c c' : Command'} {a : PArgument}
    (h : addArgument c a = .ok c') :
    (c.known_arguments.any (fun n => a.name = n)) = false ∧
    (∀ la, c.arguments.getLast? = some la →
      (la.optional && !a.optional) = false ∧ la.rep = false) ∧
    c' = { c with arguments := c.arguments ++ [a],
                  known_arguments := c.known_arguments ++ [a.name] } := by
  unfold addArgument at h
  by_cases hdup : (c.known_arguments.any fun n => a.name = n) = true
  · rw [if_pos hdup] at h
    exact absurd h (by simp)
  · rw [if_neg hdup] at h
    refine ⟨Bool.eq_false_iff.mpr hdup, ?_⟩
    split at h
    · rename_i la heq
      by_cases h1 : (la.optional && !a.optional) = true
      · rw [if_pos h1] at h
        exact absurd h (by simp)
      · rw [if_neg h1] at h
        by_cases h2 : la.rep = true
        · rw [if_pos h2] at h
          exact absurd h (by simp)
        · rw [if_neg h2] at h
          refine ⟨?_, by simpa using h.symm⟩
          rintro la' hla'
          rw [heq] at hla'
          obtain rfl : la = la' := by simpa using hla'
          exact ⟨Bool.eq_false_iff.mpr h1, Bool.eq_false_iff.mpr h2⟩
    · rename_i heq
      refine ⟨?_, by simpa using h.symm⟩
      intro la hla
      rw [heq] at hla
      exact absurd hla (by simp)

theorem keyMem_append {k : OptKey} {a b : List OptKey} :
    keyMem k (a ++ b) = (keyMem k a || keyMem k b) := by
  simp [keyMem, List.any_append]

/-- Invariant of a built optgroup: its flattened tagged keys are nodup
and its known_options set holds exactly those keys. -/
theorem ogBuilt_inv {og : OptGroup'} (h : OGBuilt og) :
    (ogKeys og).Nodup ∧ ∀ k, (keyMem k og.known_options = true ↔ k ∈ ogKeys og) := by
  induction h with
  | init name forward eea human priv =>
    constructor
    · simp [ogKeys, mkOptGroup]
    · intro k
      simp [ogKeys, mkOptGroup, keyMem]
  | @step og og2 o hb hok ih =>
    obtain ⟨hdisj, rfl⟩ := addOption_ok hok
    obtain ⟨ihn, ihm⟩ := ih
    have hfresh : ∀ k ∈ optionKeys o, k ∉ ogKeys og := by
      intro k hk hmem
      have hcon : keysIntersect (optionKeys o) og.known_options = true :=
        keysIntersect_iff.mpr ⟨k, hk, keyMem_iff.mp ((ihm k).mpr hmem)⟩
      rw [hdisj] at hcon
      exact absurd hcon (by simp)
    constructor
    · show ((og.options ++ [o]).flatMap optionKeys).Nodup
      rw [List.flatMap_append, List.nodup_append]
      refine ⟨ihn, by simpa using optionKeys_nodup o, ?_⟩
      intro k hk hk2
      have hk2' : k ∈ optionKeys o := by simpa using hk2
      exact hfresh k hk2' hk
    · intro k
      show keyMem k (og.known_options ++ optionKeys o) = true ↔
        k ∈ (og.options ++ [o]).flatMap optionKeys
      rw [List.flatMap_append, keyMem_append]
      simp only [Bool.or_eq_true, keyMem_iff, ihm, List.mem_append]
      simp [ogKeys]

/-- A helper: a flatMap over pairwise key-disjoint groups with nodup key
lists is nodup. -/
theorem nodup_flatMap_of {α β : Type} {l : List α} {f : α → List β}
    (h1 : ∀ x ∈ l, (f x).Nodup)
    (h2 : l.Pairwise (fun a b => (f a).Disjoint (f b))) :
    (l.flatMap f).Nodup := by
  induction l with
  | nil => simp
  | cons x xs ih =>
    rw [List.flatMap_cons, List.nodup_append]
    obtain ⟨hx, hxs⟩ := List.pairwise_cons.mp h2
    refine ⟨h1 x (by simp), ih (fun y hy => h1 y (by simp [hy])) hxs, ?_⟩
    intro k hk hk2
    obtain ⟨y, hy, hky⟩ := List.mem_flatMap.mp hk2
    exact hx y hy hk hky

theorem pairwise_rel_getLast {α : Type} {R : α → α → Prop} :
    ∀ {l : List α} {la : α}, l.Pairwise R → l.getLast? = some la →
      ∀ x ∈ l, x = la ∨ R x la := by
  intro l
  induction l with
  | nil => simp
  | cons b bs ih =>
    intro la hp hl x hx
    cases bs with
    | nil =>
      simp only [List.getLast?_singleton, Option.some.injEq] at hl
      subst hl
      simp only [List.mem_singleton] at hx
      exact Or.inl hx
    | cons c cs =>
      rw [List.getLast?_cons_cons] at hl
      rcases List.mem_cons.mp hx with rfl | hx2
      · exact Or.inr ((List.pairwise_cons.mp hp).1 la
          (List.mem_of_getLast?_eq_some hl))
      · exact ih (List.pairwise_cons.mp hp).2 hl x hx2

theorem pairwise_ogs_extend {ogs : List OptGroup'} {og : OptGroup'}
    (h1 : ∀ g ∈ ogs, ∀ k, (keyMem k g.known_options = true ↔ k ∈ ogKeys g))
    (hm : ∀ k, (keyMem k og.known_options = true ↔ k ∈ ogKeys og))
    (h2 : ogs.Pairwise (fun a b => (ogKeys a).Disjoint (ogKeys b)))
    (hdisj : ∀ ex ∈ ogs, keysIntersect ex.known_options og.known_options = false) :
    (ogs ++ [og]).Pairwise (fun a b => (ogKeys a).Disjoint (ogKeys b)) := by
  rw [List.pairwise_append]
  refine ⟨h2, by simp, ?_⟩
  intro ex hex g hg k hkex hkg
  have hgeq : g = og := by simpa using hg
  rw [hgeq] at hkg
  have hcon : keysIntersect ex.known_options og.known_options = true :=
    keysIntersect_iff.mpr ⟨k, keyMem_iff.mp ((h1 ex hex k).mpr hkex),
      keyMem_iff.mp ((hm k).mpr hkg)⟩
  rw [hdisj ex hex] at hcon
  exact absurd hcon (by simp)

theorem pairwise_args_extend {args : List PArgument} {a : PArgument}
    (h3 : args.Pairwise (fun x y => (x.optional = true → y.optional = true) ∧ x.rep = false))
    (hlast : ∀ la, args.getLast? = some la →
      (la.optional && !a.optional) = false ∧ la.rep = false) :
    (args ++ [a]).Pairwise
      (fun x y => (x.optional = true → y.optional = true) ∧ x.rep = false) := by
  rw [List.pairwise_append]
  refine ⟨h3, by simp, ?_⟩
  intro x hx b hbmem
  obtain rfl : b = a := by simpa using hbmem
  cases harg : args.getLast? with
  | none =>
    rw [List.getLast?_eq_none_iff] at harg
    rw [harg] at hx
    exact absurd hx (by simp)
  | some la =>
    obtain ⟨hoa, hrep⟩ := hlast la harg
    rcases pairwise_rel_getLast h3 harg x hx with rfl | hR
    · refine ⟨fun hxo => ?_, hrep⟩
      rw [hxo] at hoa
      simpa using hoa
    · refine ⟨fun hxo => ?_, hR.2⟩
      have hla := hR.1 hxo
      rw [hla] at hoa
      simpa using hoa

/-- Master invariant of a built command. -/
theorem cmdBuilt_inv {c : Command'} (h : CmdBuilt c) :
    (∀ og ∈ c.optgroups,
      (ogKeys og).Nodup ∧ ∀ k, (keyMem k og.known_options = true ↔ k ∈ ogKeys og)) ∧
    c.optgroups.Pairwise (fun a b => (ogKeys a).Disjoint (ogKeys b)) ∧
    c.arguments.Pairwise
      (fun x y => (x.optional = true → y.optional = true) ∧ x.rep = false) ∧
    (∀ n, ((c.known_arguments.any fun m => n = m) = true ↔
        n ∈ c.arguments.map PArgument.name)) := by
  induction h with
  | init name symbol altnames epa =>
    refine ⟨by simp [mkCommand], by simp [mkCommand], by simp [mkCommand], ?_⟩
    intro n
    simp [mkCommand]
  | addOG hb hogb hok ih =>
    obtain ⟨hdisj, rfl⟩ := addOptgroup_ok hok
    obtain ⟨ih1, ih2, ih3, ih4⟩ := ih
    obtain ⟨hn, hm⟩ := ogBuilt_inv hogb
    refine ⟨?_, ?_, ih3, ih4⟩
    · intro g hg
      rcases List.mem_append.mp hg with hg1 | hg2
      · exact ih1 g hg1
      · obtain rfl : g = _ := by simpa using hg2
        exact ⟨hn, hm⟩
    · exact pairwise_ogs_extend (fun g hgg k => (ih1 g hgg).2 k) hm ih2 hdisj
  | addArg a hb hok ih =>
    obtain ⟨hdup, hlast, rfl⟩ := addArgument_ok hok
    obtain ⟨ih1, ih2, ih3, ih4⟩ := ih
    refine ⟨ih1, ih2, pairwise_args_extend ih3 hlast, ?_⟩
    intro n
    simp only [List.any_append, Bool.or_eq_true, ih4, List.map_append,
      List.mem_append]
    simp

/-! ### Claim theorems for quoting and the IR invariants -/

/-- C5: for every string S, re-parsing the C string literal produced by
quote_string yields S; in the literal, the active quote character and
backslash are written as one-character backslash escapes, every byte
below 0x20 and the byte 0x7F is written as a three-digit octal escape,
and every other byte passes through verbatim. -/
theorem quote_string_roundtrip_and_escapes :
    ∀ S : String, reparseCStringLiteral (quoteString S) = some S ∧
    ∀ c : Char,
      ((c = dquote ∨ c = bslash) → charLiteral dquote c = [bslash, c]) ∧
      ((c.toNat ≤ 0x1f ∨ c.toNat = 0x7f) → charLiteral dquote c = octEscape c.toNat) ∧
      ((¬ (c = dquote ∨ c = bslash)) → (¬ (c.toNat ≤ 0x1f ∨ c.toNat = 0x7f)) →
        charLiteral dquote c = [c]) := by
  intro S
  constructor
  · show reparseCStringLiteral
      ⟨dquote :: (S.data.flatMap (charLiteral dquote) ++ [dquote])⟩ = some S
    simp only [reparseCStringLiteral]
    rw [if_pos trivial, decodeBody_flatMap]
    rfl
  · intro c
    refine ⟨?_, ?_, ?_⟩
    · intro h
      have hb : (c = dquote || c = bslash) = true := by
        rcases h with h | h <;> simp [h]
      simp [charLiteral, hb]
    · intro h
      have hcd : ¬ c = dquote := by
        intro he
        subst he
        revert h
        decide
      have hcb : ¬ c = bslash := by
        intro he
        subst he
        revert h
        decide
      have hq : (c = dquote || c = bslash) = false := by simp [hcd, hcb]
      have hc : (decide (c.toNat ≤ 0x1f) || decide (c.toNat = 0x7f)) = true := by
        rcases h with h | h <;> simp [h]
      simp [charLiteral, hq, hc]
    · intro h1 h2
      push_neg at h1 h2
      have hq : (c = dquote || c = bslash) = false := by simp [h1.1, h1.2]
      have hc : (decide (c.toNat ≤ 0x1f) || decide (c.toNat = 0x7f)) = false := by
        simp [h2.1, h2.2]
      simp [charLiteral, hq, hc]

theorem quote_string_roundtrip_and_escapes_witness :
    reparseCStringLiteral (quoteString ⟨[Char.ofNat 1, dquote, bslash, 'a']⟩) =
        some ⟨[Char.ofNat 1, dquote, bslash, 'a']⟩ ∧
    charLiteral dquote (Char.ofNat 1) = octEscape (Char.ofNat 1).toNat :=
  ⟨(quote_string_roundtrip_and_escapes ⟨[Char.ofNat 1, dquote, bslash, 'a']⟩).1,
   ((quote_string_roundtrip_and_escapes ⟨[]⟩).2 (Char.ofNat 1)).2.1
     (Or.inl (by decide))⟩

theorem flatMap_options_keys (l : List OptGroup') :
    (l.flatMap (fun og => og.options)).flatMap optionKeys = l.flatMap ogKeys := by
  induction l with
  | nil => rfl
  | cons x xs ih =>
    simp only [List.flatMap_cons, List.flatMap_append, ogKeys, ih]

/-- C6: for every successfully ingested command, the multiset union of
the tagged keys over all options of all its attached optgroups contains
no duplicates; attaching an optgroup whose key set intersects a
previously attached group's key set is fatal, as is adding an option
whose keys collide within its own group. -/
theorem option_key_disjointness :
    (∀ c, CmdBuilt c →
      ((c.optgroups.flatMap (fun og => og.options)).flatMap optionKeys).Nodup) ∧
    (∀ c og, (∃ ex ∈ c.optgroups, ∃ k, k ∈ ex.known_options ∧ k ∈ og.known_options) →
      ∃ msg, addOptgroup c og = .error msg) ∧
    (∀ og o, (∃ k, k ∈ optionKeys o ∧ k ∈ og.known_options) →
      ∃ msg, addOption og o = .error msg) := by
  refine ⟨?_, ?_, ?_⟩
  · intro c hc
    obtain ⟨h1, h2, -, -⟩ := cmdBuilt_inv hc
    rw [flatMap_options_keys]
    exact nodup_flatMap_of (fun og hog => (h1 og hog).1) h2
  · rintro c og ⟨ex, hex, k, hk1, hk2⟩
    refine ⟨"optgroup conflicts with optgroup", ?_⟩
    have hx : (c.optgroups.any fun e =>
        keysIntersect e.known_options og.known_options) = true :=
      List.any_eq_true.mpr ⟨ex, hex, keysIntersect_iff.mpr ⟨k, hk1, hk2⟩⟩
    simp only [addOptgroup]
    rw [if_pos hx]
  · rintro og o ⟨k, hk1, hk2⟩
    refine ⟨"conflicting options", ?_⟩
    have hx : keysIntersect (optionKeys o) og.known_options = true :=
      keysIntersect_iff.mpr ⟨k, hk1, hk2⟩
    simp only [addOption]
    rw [if_pos hx]

/-- A concrete option, optgroup and command used by the witnesses. -/
def witOptionV : POption :=
  { short := some 'v', long := "verbose", symbol := "verbose",
    arg := none, type := none, accumulate := none }

/-- The optgroup obtained by adding witOptionV to a fresh group. -/
def witOgStyle : OptGroup' :=
  { name := "style", symbol := "style", forward := true,
    export_emit_args := false,
    known_options := [.long "verbose", .symbol "verbose", .short 'v'],
    accumulations := [], options := [witOptionV],
    og_private := false, human := none }

/-- The command obtained by attaching witOgStyle to a fresh command. -/
def witCmdGreet : Command' :=
  { name := "greet", symbol := "greet", altnames := [],
    export_parse_args := false, optgroups := [witOgStyle],
    known_arguments := [], arguments := [] }

theorem option_key_disjointness_witness :
    ((witCmdGreet.optgroups.flatMap (fun og => og.options)).flatMap
      optionKeys).Nodup := by
  refine option_key_disjointness.1 _ ?_
  refine CmdBuilt.addOG (CmdBuilt.init "greet" "greet" [] false) ?_ (by rfl)
  exact OGBuilt.step witOptionV
    (OGBuilt.init "style" true false none false) (by rfl)

theorem addArgument_error_iff (c : Command') (a : PArgument) :
    (∃ msg, addArgument c a = .error msg) ↔
      ((c.known_arguments.any fun n => a.name = n) = true ∨
       ∃ la, c.arguments.getLast? = some la ∧
         ((la.optional && !a.optional) = true ∨ la.rep = true)) := by
  unfold addArgument
  by_cases hdup : (c.known_arguments.any fun n => a.name = n) = true
  · rw [if_pos hdup]
    simp [hdup]
  · rw [if_neg hdup]
    split
    · rename_i la heq
      by_cases h1 : (la.optional && !a.optional) = true
      · rw [if_pos h1]
        constructor
        · intro _
          exact Or.inr ⟨la, heq, Or.inl h1⟩
        · intro _
          exact ⟨_, rfl⟩
      · rw [if_neg h1]
        by_cases h2 : la.rep = true
        · rw [if_pos h2]
          constructor
          · intro _
            exact Or.inr ⟨la, heq, Or.inr h2⟩
          · intro _
            exact ⟨_, rfl⟩
        · rw [if_neg h2]
          constructor
          · rintro ⟨msg, hmsg⟩
            exact absurd hmsg (by simp)
          · rintro (hd | ⟨la2, hla2, hviol⟩)
            · exact absurd hd hdup
            · rw [heq] at hla2
              obtain rfl : la = la2 := by simpa using hla2
              rcases hviol with hv | hv
              · exact absurd hv h1
              · exact absurd hv h2
    · rename_i heq
      constructor
      · rintro ⟨msg, hmsg⟩
        exact absurd hmsg (by simp)
      · rintro (hd | ⟨la2, hla2, -⟩)
        · exact absurd hd hdup
        · rw [heq] at hla2
          exact absurd hla2 (by simp)

/-- C7: in every successfully ingested command's argument list, no
argument follows a repeat argument and no mandatory argument follows an
optional one; add_argument fails on either violation and on a duplicate
argument name. -/
theorem argument_ordering :
    ∀ c, CmdBuilt c →
      c.arguments.Pairwise
        (fun x y => (x.optional = true → y.optional = true) ∧ x.rep = false) ∧
      ∀ a, (∃ msg, addArgument c a = .error msg) ↔
        (a.name ∈ c.arguments.map PArgument.name ∨
         ∃ la, c.arguments.getLast? = some la ∧
           ((la.optional = true ∧ a.optional = false) ∨ la.rep = true)) := by
  intro c hc
  obtain ⟨-, -, h3, h4⟩ := cmdBuilt_inv hc
  refine ⟨h3, fun a => ?_⟩
  rw [addArgument_error_iff, h4 a.name]
  apply or_congr Iff.rfl
  apply exists_congr
  intro la
  apply and_congr Iff.rfl
  apply or_congr _ Iff.rfl
  simp [Bool.and_eq_true, Bool.not_eq_true']

theorem argument_ordering_witness :
    (({ name := "cp", symbol := "cp", altnames := [],
        export_parse_args := false, optgroups := [],
        known_arguments := ["src", "dst"],
        arguments := [mkPArgument "src" "string" false false,
                      mkPArgument "dst" "string" false true] } :
      Command').arguments.Pairwise
        (fun x y => (x.optional = true → y.optional = true) ∧ x.rep = false)) ∧
    (∃ msg,
      addArgument
        { name := "cp", symbol := "cp", altnames := [],
          export_parse_args := false, optgroups := [],
          known_arguments := ["src", "dst"],
          arguments := [mkPArgument "src" "string" false false,
                        mkPArgument "dst" "string" false true] }
        (mkPArgument "tail" "string" false false) = .error msg) := by
  have hb : CmdBuilt
      { name := "cp", symbol := "cp", altnames := [],
        export_parse_args := false, optgroups := [],
        known_arguments := ["src", "dst"],
        arguments := [mkPArgument "src" "string" false false,
                      mkPArgument "dst" "string" false true] } :=
    CmdBuilt.addArg (mkPArgument "dst" "string" false true)
      (CmdBuilt.addArg (mkPArgument "src" "string" false false)
        (CmdBuilt.init "cp" "cp" [] false) (by rfl)) (by rfl)
  refine ⟨(argument_ordering _ hb).1, ((argument_ordering _ hb).2 _).mpr ?_⟩
  exact Or.inr ⟨mkPArgument "dst" "string" false true, by rfl, Or.inl ⟨rfl, rfl⟩⟩

/-- C10: attaching an optgroup to a command fails exactly when its key
set intersects the key set of some already-attached group; in
particular a built optgroup with no options attaches to any command
(hence also repeatedly to the same command) without error. -/
theorem optgroup_attach_iff :
    (∀ c og, (∃ msg, addOptgroup c og = .error msg) ↔
      ∃ ex ∈ c.optgroups, ∃ k, k ∈ ex.known_options ∧ k ∈ og.known_options) ∧
    (∀ og, OGBuilt og → og.options = [] →
      ∀ c, addOptgroup c og = .ok { c with optgroups := c.optgroups ++ [og] }) := by
  constructor
  · intro c og
    constructor
    · rintro ⟨msg, hmsg⟩
      simp only [addOptgroup] at hmsg
      by_cases hx : (c.optgroups.any fun ex =>
          keysIntersect ex.known_options og.known_options) = true
      · obtain ⟨ex, hex, hint⟩ := List.any_eq_true.mp hx
        obtain ⟨k, hk1, hk2⟩ := keysIntersect_iff.mp hint
        exact ⟨ex, hex, k, hk1, hk2⟩
      · rw [if_neg hx] at hmsg
        exact absurd hmsg (by simp)
    · rintro ⟨ex, hex, k, hk1, hk2⟩
      refine ⟨"optgroup conflicts with optgroup", ?_⟩
      simp only [addOptgroup]
      rw [if_pos (List.any_eq_true.mpr
        ⟨ex, hex, keysIntersect_iff.mpr ⟨k, hk1, hk2⟩⟩)]
  · intro og hog hopts c
    obtain ⟨-, hm⟩ := ogBuilt_inv hog
    have hempty : ∀ k, keyMem k og.known_options = false := by
      intro k
      rw [Bool.eq_false_iff]
      intro hk
      have hmem := (hm k).mp hk
      rw [ogKeys, hopts] at hmem
      simp at hmem
    have hany : (c.optgroups.any fun ex =>
        keysIntersect ex.known_options og.known_options) = false := by
      rw [Bool.eq_false_iff]
      intro hx
      obtain ⟨ex, hex, hint⟩ := List.any_eq_true.mp hx
      obtain ⟨k, hk1, hk2⟩ := keysIntersect_iff.mp hint
      have hk3 := keyMem_iff.mpr hk2
      rw [hempty k] at hk3
      exact absurd hk3 (by simp)
    simp only [addOptgroup]
    rw [if_neg (Bool.eq_false_iff.mp hany)]

theorem optgroup_attach_iff_witness :
    addOptgroup
      { mkCommand "x" "x" [] false with
          optgroups := [mkOptGroup "empty" true false none] }
      (mkOptGroup "empty" true false none) =
    .ok { mkCommand "x" "x" [] false with
            optgroups := [mkOptGroup "empty" true false none,
                          mkOptGroup "empty" true false none] } := by
  have h := optgroup_attach_iff.2 (mkOptGroup "empty" true false none)
    (OGBuilt.init "empty" true false none false) rfl
    { mkCommand "x" "x" [] false with
        optgroups := [mkOptGroup "empty" true false none] }
  simpa using h

/-! ### UsageFileReader conditional-compilation core (cmdsproc.py 58-108)

The reader dispatches start/stop/cdata events to subclass handlers only
while every frame on the ifdef stack is enabled; the handled list
records exactly the events that reached a handler. Python's unbounded
int level is modelled as Int. -/

inductive XmlEvent where
  | start (name : String)
  | stop (name : String)
  | cdata (s : String)
  | pi (target : String) (data : String)
deriving DecidableEq

structure ReaderState where
  ifdefs : List (Bool × Int)
  level : Int
  handled : List XmlEvent
deriving DecidableEq

/-- UsageFileReader.__enabled_p. -/
def enabledP (st : ReaderState) : Bool := st.ifdefs.all (fun f => f.1)

/-- Helper for pySplitWS: single pass with a reversed-word accumulator. -/
def pySplitAux : List Char → List Char → List String
  | [], acc => if acc.isEmpty then [] else [⟨acc.reverse⟩]
  | c :: rest, acc =>
    if pySpace c then
      if acc.isEmpty then pySplitAux rest []
      else ⟨acc.reverse⟩ :: pySplitAux rest []
    else pySplitAux rest (c :: acc)

/-- Python str.split() with no argument: split on whitespace runs,
dropping empty pieces. -/
def pySplitWS (s : String) : List String := pySplitAux s.data []

/-- One reader event step (the four expat handlers). -/
def readerStep (defs : List String) (st : ReaderState) :
    XmlEvent → Except String ReaderState
  | .start name =>
    if !enabledP st then .ok st
    else .ok { st with level := st.level + 1,
                       handled := st.handled ++ [.start name] }
  | .stop name =>
    if !enabledP st then .ok st
    else .ok { st with handled := st.handled ++ [.stop name],
                       level := st.level - 1 }
  | .cdata s =>
    if !enabledP st then .ok st
    else .ok { st with handled := st.handled ++ [.cdata s] }
  | .pi target data =>
    let args := pySplitWS data
    if target = "ifdef" || target = "ifndef" then
      if args.length = 0 then .error "no ifdef condition supplied"
      else if args.length > 1 then .error "ifdef syntax error"
      else
        let enable := (decide (args.headD "" ∈ defs)) == (target == "ifdef")
        .ok { st with ifdefs := st.ifdefs ++ [(enable, st.level)] }
    else if target = "endif" then
      if ¬ args = [] then .error "invalid endif syntax"
      else
        match st.ifdefs.getLast? with
        | none => .error "IndexError: pop from empty list"
        | some f =>
          if ¬ st.level = f.2 then .error "badly formed ifdef: levels do not match"
          else .ok { st with ifdefs := st.ifdefs.dropLast }
    else .error "unknown processing instruction"

def runReader (defs : List String) :
    ReaderState → List XmlEvent → Except String ReaderState
  | st, [] => .ok st
  | st, e :: rest =>
    match readerStep defs st e with
    | .ok st2 => runReader defs st2 rest
    | .error msg => .error msg

def readerInit : ReaderState := { ifdefs := [], level := 0, handled := [] }

/-- The true element-nesting depth of the document after a prefix of
events: starts minus stops, regardless of conditional state. -/
def rawDepth (events : List XmlEvent) : Int :=
  events.foldl
    (fun d e =>
      match e with
      | .start _ => d + 1
      | .stop _ => d - 1
      | _ => d) 0

/-- C4 counterexample: with MACRO undefined, the document
<?ifdef MACRO?> <a> <?endif?> has its endif at element-nesting depth 1
while the ifdef was opened at depth 0, yet parsing does not fail:
inside the disabled frame the start event neither reaches a handler nor
increments the tracked level, so the endif check compares 0 with 0. -/
theorem ifdef_depth_counterexample :
    runReader [] readerInit
      [.pi "ifdef" "MACRO", .start "a", .pi "endif" ""] = .ok readerInit ∧
    rawDepth [.pi "ifdef" "MACRO", .start "a"] = 1 ∧
    (runReader [] readerInit [.pi "ifdef" "MACRO", .start "a"]).toOption.map
      (fun st => st.level) = some 0 := by
  refine ⟨by rfl, by decide, by decide⟩

/-- C4 amended: while any enclosing conditional frame is disabled,
start-, end- and character-data events are suppressed and the tracked
element level is left unchanged (depth counting is suspended, not
continued); an endif fails with the badly-formed-ifdef error exactly
when the tracked level differs from the level recorded by its frame. -/
theorem ifdef_gating :
    (∀ defs st name, enabledP st = false →
      readerStep defs st (.start name) = .ok st ∧
      readerStep defs st (.stop name) = .ok st ∧
      ∀ s, readerStep defs st (.cdata s) = .ok st) ∧
    (∀ defs st f, st.ifdefs.getLast? = some f →
      ((∃ msg, readerStep defs st (.pi "endif" "") = .error msg) ↔
        ¬ st.level = f.2)) := by
  constructor
  · intro defs st name hdis
    refine ⟨?_, ?_, fun s => ?_⟩ <;> simp [readerStep, hdis]
  · intro defs st f hf
    have hargs : pySplitWS "" = [] := by decide
    simp only [readerStep, hargs]
    rw [if_neg (by decide), if_pos (by decide), if_neg (by simp), hf]
    by_cases hl : st.level = f.2
    · simp [hl]
    · simp [hl]

theorem ifdef_gating_witness :
    readerStep [] { ifdefs := [(false, 0)], level := 0, handled := [] }
      (.start "a") =
      .ok { ifdefs := [(false, 0)], level := 0, handled := [] } ∧
    (∃ msg, readerStep [] { ifdefs := [(true, 5)], level := 0, handled := [] }
      (.pi "endif" "") = .error msg) := by
  constructor
  · exact (ifdef_gating.1 [] _ "a" (by decide)).1
  · exact (ifdef_gating.2 [] _ (true, 5) (by decide)).mpr (by decide)

/-! ### Line-oriented CWriter model (cmdsproc.py 372-453) and emitters

writeln writes two spaces per indent level, then the text, then a
newline; the output stream is modelled as the list of emitted lines.
The indented context manager is modelled by explicit indent/dedent
around the block followed by the closing writeln. -/

structure CW where
  lines : List String
  indent : Nat
deriving DecidableEq

def indentSpaces (n : Nat) : String := ⟨List.replicate n ' '⟩

/-- CWriter.writeln. -/
def cwWriteln (w : CW) (s : String) : CW :=
  { w with lines := w.lines ++ [indentSpaces (w.indent * 2) ++ s] }

def cwIndent (w : CW) : CW := { w with indent := w.indent + 1 }

def cwDedent (w : CW) : CW := { w with indent := w.indent - 1 }

/-- Command.dispatch_function's name: "<symbol>_dispatch". -/
def dispatchFunctionName (c : Command') : String := c.symbol ++ "_dispatch"

/-- The registry entry block emitted for one (command, name) pair by
op_c (cmdsproc.py 734-739). -/
def emitRegistryEntry (c : Command') (n : String) (w : CW) : CW :=
  let w := cwWriteln w "\x7b"
  let w := cwIndent w
  let w := cwWriteln w (".name = " ++ quoteString n ++ ",")
  let w := cwWriteln w (".main = " ++ dispatchFunctionName c ++ ",")
  let w := cwDedent w
  cwWriteln w "\x7d,"

/-- The autocmds[] registry emission of op_c (cmdsproc.py 732-741). -/
def emitAutocmds (cmds : List Command') (w : CW) : CW :=
  let w := cwWriteln w "const struct cmd autocmds[] = \x7b"
  let w := cwIndent w
  let w := cmds.foldl
    (fun w c => (allnames c).foldl (fun w n => emitRegistryEntry c n w) w) w
  let w := cwWriteln w "\x7b0\x7d"
  let w := cwDedent w
  cwWriteln w "\x7d;"

/-- One registry entry as the specification describes it. -/
structure RegistryEntry where
  name : String
  main : String
deriving DecidableEq

/-- The registry contents the specification describes: one entry per
name in allnames (primary name first, then alternates), commands in
declaration order, each entry pointing at the command's dispatcher. -/
def registrySpec (cmds : List Command') : List RegistryEntry :=
  cmds.flatMap (fun c => (allnames c).map (fun n => ⟨n, dispatchFunctionName c⟩))

/-- The four text lines of one rendered registry entry. -/
def renderRegistryEntry (e : RegistryEntry) : List String :=
  ["  \x7b",
   "    .name = " ++ quoteString e.name ++ ",",
   "    .main = " ++ e.main ++ ",",
   "  \x7d,"]

theorem emitRegistryEntry_lines (c : Command') (n : String) (w : CW)
    (h : w.indent = 1) :
    emitRegistryEntry c n w =
      { lines := w.lines ++
          renderRegistryEntry ⟨n, dispatchFunctionName c⟩, indent := 1 } := by
  have e1 : ∀ q : String,
      indentSpaces 4 ++ (".name = " ++ q ++ ",") = "    .name = " ++ q ++ "," := by
    intro q
    rw [← String.append_assoc, ← String.append_assoc,
      show (indentSpaces 4 : String) ++ ".name = " = "    .name = " from by decide]
  have e2 : ∀ q : String,
      indentSpaces 4 ++ (".main = " ++ q ++ ",") = "    .main = " ++ q ++ "," := by
    intro q
    rw [← String.append_assoc, ← String.append_assoc,
      show (indentSpaces 4 : String) ++ ".main = " = "    .main = " from by decide]
  simp only [emitRegistryEntry, cwWriteln, cwIndent, cwDedent, h,
    renderRegistryEntry, e1, e2]
  simp only [show (1 : Nat) * 2 = 2 from rfl, show (1 + 1) * 2 = 4 from rfl,
    show (1 + 1 - 1 : Nat) = 1 from rfl,
    show (indentSpaces 2 : String) ++ "\x7b" = "  \x7b" from by decide,
    show (indentSpaces 2 : String) ++ "\x7d," = "  \x7d," from by decide]
  simp [List.append_assoc]

theorem emitRegistryEntry_names (c : Command') (ns : List String) (w : CW)
    (h : w.indent = 1) :
    ns.foldl (fun w n => emitRegistryEntry c n w) w =
      { lines := w.lines ++
          (ns.map (fun n => (⟨n, dispatchFunctionName c⟩ : RegistryEntry))).flatMap
            renderRegistryEntry,
        indent := 1 } := by
  induction ns generalizing w with
  | nil =>
    simp only [List.foldl_nil, List.map_nil, List.flatMap_nil, List.append_nil]
    cases w with
    | mk lines indent =>
      simp only at h
      rw [h]
  | cons n ns ih =>
    rw [List.foldl_cons, emitRegistryEntry_lines c n w h, ih _ (by rfl)]
    simp

theorem emitAutocmds_entries (cmds : List Command') (w : CW) (h : w.indent = 1) :
    cmds.foldl
      (fun w c => (allnames c).foldl (fun w n => emitRegistryEntry c n w) w) w =
      { lines := w.lines ++ (registrySpec cmds).flatMap renderRegistryEntry,
        indent := 1 } := by
  induction cmds generalizing w with
  | nil =>
    simp only [List.foldl_nil, registrySpec, List.flatMap_nil, List.append_nil]
    cases w with
    | mk lines indent =>
      simp only at h
      rw [h]
  | cons c cs ih =>
    rw [List.foldl_cons, emitRegistryEntry_names c (allnames c) w h, ih _ (by rfl)]
    simp [registrySpec]

/-- C8: the emitted autocmds[] registry consists of exactly one entry
block per name in allnames() (primary name first, then alternates,
commands in declaration order), each entry's .main field naming the
command's shared dispatcher, followed by a single zero-initialized
sentinel before the closing brace. -/
theorem autocmds_registry_layout :
    ∀ (cmds : List Command') (w : CW), w.indent = 0 →
      (emitAutocmds cmds w).lines =
        w.lines ++ ["const struct cmd autocmds[] = \x7b"] ++
        (registrySpec cmds).flatMap renderRegistryEntry ++
        ["  \x7b0\x7d", "\x7d;"] ∧
      (emitAutocmds cmds w).indent = 0 := by
  intro cmds w h
  simp only [emitAutocmds, cwWriteln, cwIndent, cwDedent, h]
  rw [emitAutocmds_entries cmds _ (by rfl)]
  simp only [show (0 : Nat) * 2 = 0 from rfl, show (0 + 1) * 2 = 2 from rfl,
    show (0 + 1 - 1 : Nat) = 0 from rfl,
    show (indentSpaces 0 : String) ++ "const struct cmd autocmds[] = \x7b" =
      "const struct cmd autocmds[] = \x7b" from by decide,
    show (indentSpaces 2 : String) ++ "\x7b0\x7d" = "  \x7b0\x7d" from by decide,
    show (indentSpaces 0 : String) ++ "\x7d;" = "\x7d;" from by decide]
  refine ⟨?_, by simp⟩
  simp [List.append_assoc]

theorem autocmds_registry_layout_witness :
    (emitAutocmds
      [mkCommand "build" "build" ["b"] false] { lines := [], indent := 0 }).lines =
      ["const struct cmd autocmds[] = \x7b",
       "  \x7b", "    .name = \"build\",", "    .main = build_dispatch,", "  \x7d,",
       "  \x7b", "    .name = \"b\",", "    .main = build_dispatch,", "  \x7d,",
       "  \x7b0\x7d", "\x7d;"] := by
  rw [(autocmds_registry_layout [mkCommand "build" "build" ["b"] false]
    { lines := [], indent := 0 } rfl).1]
  decide

/-! ### The static option tables of parse_args_cmd_* (cmdsproc.py 515-538) -/

/-- One step of the short-spec-building loop of
emit_parse_args_cmd_function: records need_long_only when an option has
no short character; appends the short character, then ":" when the
option takes an argument. -/
def shortSpecStep (st : Bool × List String) (o : POption) : Bool × List String :=
  let st1 := if o.short.isNone then (true, st.2) else st
  match o.short with
  | none => st1
  | some ch =>
    (st1.1, st1.2 ++ [String.singleton ch] ++ (if o.arg.isSome then [":"] else []))

/-- The loop of cmdsproc.py 517-525 over command.iter_options(),
started from need_long_only = False, short_spec_parts = ["+:"]. -/
def shortSpecFold (opts : List POption) : Bool × List String :=
  opts.foldl shortSpecStep (false, ["+:"])

/-- The contribution of one option to the short spec as the claim
describes it: its short character when present, followed by ":" exactly
when the option takes an argument. -/
def shortSpecPart (o : POption) : List String :=
  match o.short with
  | none => []
  | some ch => [String.singleton ch] ++ (if o.arg.isSome then [":"] else [])

/-- The short-option spec string as the claim describes it: "+:"
followed by each option's contribution in declaration order. -/
def shortSpecOf (cmd : Command') : String :=
  String.join (["+:"] ++ (iterOptions cmd).flatMap shortSpecPart)

/-- One line of the static long-option table (cmdsproc.py 531-535):
the quoted long name, no_argument for a flag and required_argument for
an option with a value, NULL, and the quoted short character when one
exists, else 0. -/
def longOptTableLine (o : POption) : String :=
  "\x7b" ++ quoteString o.long ++ ", " ++
    (if o.arg.isNone then "no_argument" else "required_argument") ++
    ", NULL, " ++
    (match o.short with
     | none => "0"
     | some ch => quoteChar ch) ++ "\x7d,"

/-- The prologue of emit_parse_args_cmd_function (cmdsproc.py 515-538):
the function header, optind reset, static long-option table and static
short-option spec. The remainder of the function (the getopt loop and
positional capture) is outside the claim's scope. -/
def emitParseArgsCmdTables (cmd : Command') (w : CW) : CW :=
  let shortSpec := String.join (shortSpecFold (iterOptions cmd)).2
  let w := cwWriteln w "void"
  let w := cwWriteln w ("parse_args_cmd_" ++ cmd.symbol ++
    "(struct cmd_" ++ cmd.name ++ "_info* ret, int argc, const char** argv)")
  let w := cwWriteln w "\x7b"
  let w := cwIndent w
  let w := cwWriteln w "optind = 1;"
  let w := cwWriteln w "static const struct option long_opts[] = \x7b"
  let w := cwIndent w
  let w := (iterOptions cmd).foldl (fun w o => cwWriteln w (longOptTableLine o)) w
  let w := cwWriteln w "\x7b0\x7d"
  let w := cwDedent w
  let w := cwWriteln w "\x7d;"
  cwWriteln w ("static const char short_opts[] = " ++ quoteString shortSpec ++ ";")

theorem shortSpecStep_parts (st : Bool × List String) (o : POption) :
    (shortSpecStep st o).2 = st.2 ++ shortSpecPart o := by
  cases h : o.short with
  | none => simp [shortSpecStep, shortSpecPart, h]
  | some ch => simp [shortSpecStep, shortSpecPart, h]

theorem shortSpecFold_parts :
    ∀ (opts : List POption) (st : Bool × List String),
      (opts.foldl shortSpecStep st).2 = st.2 ++ opts.flatMap shortSpecPart := by
  intro opts
  induction opts with
  | nil => simp
  | cons o os ih =>
    intro st
    rw [List.foldl_cons, ih, shortSpecStep_parts]
    simp

theorem emitLongOptLines (opts : List POption) : ∀ w : CW,
    opts.foldl (fun w o => cwWriteln w (longOptTableLine o)) w =
      { lines := w.lines ++
          opts.map (fun o => indentSpaces (w.indent * 2) ++ longOptTableLine o),
        indent := w.indent } := by
  induction opts with
  | nil =>
    intro w
    simp
  | cons o os ih =>
    intro w
    rw [List.foldl_cons, ih]
    simp [cwWriteln]

/-- C9: the emitted parse_args prologue defines a static long-option
table with one entry per option in declaration order across all
attached optgroups, each entry carrying the quoted long name,
no_argument for a flag else required_argument, NULL, and the quoted
short character when one exists else 0; and a static short-option spec
string that is "+:" followed, in declaration order, by each short
character with ":" appended exactly when that option takes an
argument. -/
theorem parse_args_static_tables :
    ∀ (cmd : Command') (w : CW), w.indent = 0 →
      (emitParseArgsCmdTables cmd w).lines =
        w.lines ++
        ["void",
         "parse_args_cmd_" ++ cmd.symbol ++ "(struct cmd_" ++ cmd.name ++
           "_info* ret, int argc, const char** argv)",
         "\x7b",
         "  optind = 1;",
         "  static const struct option long_opts[] = \x7b"] ++
        ((iterOptions cmd).map (fun o => "    " ++ longOptTableLine o)) ++
        ["    \x7b0\x7d",
         "  \x7d;",
         "  static const char short_opts[] = " ++ quoteString (shortSpecOf cmd) ++ ";"] := by
  intro cmd w h
  have hspec : String.join (shortSpecFold (iterOptions cmd)).2 = shortSpecOf cmd := by
    rw [shortSpecOf, shortSpecFold, shortSpecFold_parts]
  simp only [emitParseArgsCmdTables, hspec]
  rw [emitLongOptLines]
  simp only [cwWriteln, cwIndent, cwDedent, h]
  simp only [show (0 * 2 : Nat) = 0 from rfl, show ((0 + 1) * 2 : Nat) = 2 from rfl,
    show ((0 + 1 + 1) * 2 : Nat) = 4 from rfl,
    show (0 + 1 + 1 - 1 : Nat) = 1 from rfl, show ((1 : Nat) * 2) = 2 from rfl,
    show (indentSpaces 0 : String) = "" from by decide,
    show (indentSpaces 2 : String) = "  " from by decide,
    show (indentSpaces 4 : String) = "    " from by decide]
  have i0 : ∀ s : String, ("" : String) ++ s = s := by
    intro s
    exact String.ext (by simp)
  simp only [i0]
  simp [← String.append_assoc, List.append_assoc]

theorem parse_args_static_tables_witness :
    (emitParseArgsCmdTables witCmdGreet { lines := [], indent := 0 }).lines =
      ["void",
       "parse_args_cmd_greet(struct cmd_greet_info* ret, int argc, const char** argv)",
       "\x7b",
       "  optind = 1;",
       "  static const struct option long_opts[] = \x7b",
       "    \x7b\"verbose\", no_argument, NULL, 'v'\x7d,",
       "    \x7b0\x7d",
       "  \x7d;",
       "  static const char short_opts[] = \"+:v\";"] := by
  rw [parse_args_static_tables witCmdGreet { lines := [], indent := 0 } rfl]
  decide

/-! ### The documentation walker PodGeneratingReader (cmdsproc.py 743-1083)

The BufferingWriter is modelled by the pair (outMain, outBuf): writes go
into the buffer when one is active, else to the main output. The
section-contents dict maps titles to the buffered text (Python stores
the ob_end_flush return value, which would be None were no buffer
active, hence the Option String values). Python dict insertion order is
preserved by the association-list model. The ifdef layer is the reader
core above; the walker here receives the already-enabled event stream. -/

structure PodCtx where
  optgroups : List (String × OptGroup')
  commands : List (String × Command')
  full_optgroups : Bool
deriving DecidableEq

structure PodState where
  paragraph : List String
  pre_depth : Int
  outMain : String
  outBuf : Option String
  section_contents : List (String × Option String)
  current_section : Option String
  current_command : Option Command'
deriving DecidableEq

/-- Ordered-dict store: replace in place when the key exists, else
append. -/
def dictInsert (m : List (String × Option String)) (k : String)
    (v : Option String) : List (String × Option String) :=
  if m.any (fun p => p.1 = k) then
    m.map (fun p => if p.1 = k then (k, v) else p)
  else m ++ [(k, v)]

/-- Dict lookup: some value when the key is present. -/
def dictLookup (m : List (String × Option String)) (k : String) :
    Option (Option String) :=
  (m.find? (fun p => p.1 = k)).map (fun p => p.2)

/-- Ordered-dict lookup for the optgroup and command tables. -/
def assocFind {α : Type} (l : List (String × α)) (k : String) : Option α :=
  (l.find? (fun p => p.1 = k)).map (fun p => p.2)

/-- BufferingWriter.write. -/
def bwWrite (st : PodState) (s : String) : PodState :=
  match st.outBuf with
  | some b => { st with outBuf := some (b ++ s) }
  | none => { st with outMain := st.outMain ++ s }

/-- BufferingWriter.ob_start (asserts no buffer is active). -/
def obStart (st : PodState) : Except String PodState :=
  if st.outBuf.isSome then .error "AssertionError: ob_start"
  else .ok { st with outBuf := some "" }

/-- BufferingWriter.ob_end_flush: returns the buffered contents (none
when no buffer was active) and writes them to the underlying output. -/
def obEndFlush (st : PodState) : Option String × PodState :=
  match st.outBuf with
  | some b => (some b, bwWrite { st with outBuf := none } b)
  | none => (none, st)

/-- PodGeneratingReader.PODESCAPE applied through PODSPECIAL. -/
def podEscChar (c : Char) : List Char :=
  if c = '<' then "E<lt>".data
  else if c = '>' then "E<gt>".data
  else if c = '|' then "E<verbar>".data
  else if c = '/' then "E<sol>".data
  else [c]

/-- PodGeneratingReader.quote: escaping disabled inside a pre block. -/
def podQuote (st : PodState) (text : String) : String :=
  if st.pre_depth > 0 then text else ⟨text.data.flatMap podEscChar⟩

/-- PodGeneratingReader.spool. -/
def spool (st : PodState) (part : String) : PodState :=
  { st with paragraph := st.paragraph ++ [part] }

/-- PodGeneratingReader.flush_paragraph: joins the paragraph, collapses
whitespace runs, strips, and drops empty text and the lone Z marker;
inside a pre block a leading space marks the paragraph as verbatim. -/
def flushParagraph (st : PodState) : PodState :=
  let text := String.join st.paragraph
  let st := { st with paragraph := [] }
  let text := pyStrip (wsCollapse text)
  if ¬ text = "" ∧ ¬ text = "Z<>" then
    let st := if st.pre_depth > 0 then bwWrite st " " else st
    bwWrite (bwWrite st (pyStrip text)) "\n\n"
  else st

/-- PodGeneratingReader.command. -/
def podCommand (st : PodState) (s : String) : PodState :=
  flushParagraph (spool (flushParagraph st) s)

/-- PodGeneratingReader.start_section_buffer. -/
def startSectionBuffer (st : PodState) (title : String) : Except String PodState :=
  if st.current_section.isSome then
    .error "AssertionError: current_section is not None"
  else obStart { st with current_section := some title }

/-- PodGeneratingReader.flush_section_buffer: flushes the paragraph,
then when a section is open ends its buffer and stores the contents in
the section-contents map under the section title. -/
def flushSectionBuffer (st : PodState) : PodState :=
  let st := flushParagraph st
  match st.current_section with
  | none => st
  | some name =>
    let r := obEndFlush st
    { r.2 with current_section := none,
               section_contents := dictInsert r.2.section_contents name r.1 }

/-- PodGeneratingReader.head1: flushes the previous section, emits the
uppercased header to the underlying output, then opens a buffer for the
new section. -/
def head1 (st : PodState) (title : String) : Except String PodState :=
  let st := flushSectionBuffer st
  let st := podCommand st ("=head1 " ++ pyUpper (podQuote st title))
  startSectionBuffer st title

/-- PodGeneratingReader.section_title_for_optgroup: "<human-or-name>
options", uppercased; an empty human label is falsy in Python and falls
back to the name. -/
def sectionTitleForOptgroup (og : OptGroup') : String :=
  pyUpper ((match og.human with
    | some h => if h = "" then og.name else h
    | none => og.name) ++ " options")

/-- PodGeneratingReader.section_title_for_command. -/
def sectionTitleForCommand (c : Command') : String := c.name ++ " command"

/-- Python str.split(",") on the names attribute. -/
def splitCommaAux : List Char → List Char → List String
  | [], acc => [⟨acc.reverse⟩]
  | c :: rest, acc =>
    if c = ',' then ⟨acc.reverse⟩ :: splitCommaAux rest []
    else splitCommaAux rest (c :: acc)

def splitComma (s : String) : List String := splitCommaAux s.data []

/-- PodGeneratingReader.write_command_synopsis (cmdsproc.py 876-911). -/
def writeCommandSynopsis (st : PodState) (command : Command')
    (verbose : Bool) : PodState :=
  let s := "B<fbadb " ++ podQuote st command.name ++ "> "
  let s :=
    if ¬ verbose then
      s ++ (if ¬ command.optgroups = [] then " [options]" else "")
    else
      let short_simple := command.optgroups.flatMap (fun og =>
        og.options.filterMap (fun o =>
          match o.short, o.arg with
          | some ch, none => some ch
          | _, _ => none))
      let s :=
        if ¬ short_simple = [] then
          s ++ "[B<-" ++ podQuote st ⟨short_simple⟩ ++ ">] "
        else s
      command.optgroups.foldl (fun s og =>
        og.options.foldl (fun s o =>
          let s :=
            match o.short with
            | some ch =>
              s ++ " [B<-" ++ podQuote st (String.singleton ch) ++ ">" ++
                (match o.arg with
                 | some a => "I<" ++ podQuote st a ++ ">"
                 | none => "") ++ "]"
            | none => s
          s ++ " S<[B<--" ++ podQuote st o.long ++ ">" ++
            (match o.arg with
             | some a => "=I<" ++ podQuote st a ++ ">"
             | none => "") ++ "]>") s) s
  let r := command.arguments.foldl
    (fun (p : String × Nat) argument =>
      let arg_s := "I<" ++ podQuote st argument.name ++
        (if argument.rep then "..." else "") ++ ">"
      if argument.optional then (p.1 ++ " " ++ ("[" ++ arg_s), p.2 + 1)
      else (p.1 ++ " " ++ arg_s, p.2))
    (s, 0)
  podCommand st (r.1 ++ ⟨List.replicate r.2 ']'⟩)

/-- The label of an =item for one option (cmdsproc.py 948-970). -/
def optionLabel (st : PodState) (short : Option String) (long : String)
    (arg : Option String) : String :=
  match arg with
  | none =>
    match short with
    | none => "B<--" ++ podQuote st long ++ ">"
    | some sh => "B<-" ++ podQuote st sh ++ ">, B<--" ++ podQuote st long ++ ">"
  | some a =>
    match short with
    | none => "B<--" ++ podQuote st long ++ ">=I<" ++ podQuote st a ++ ">"
    | some sh =>
      "B<-" ++ podQuote st sh ++ ">I<" ++ podQuote st a ++ ">, B<--" ++
        podQuote st long ++ ">=I<" ++ podQuote st a ++ ">"

/-- PodGeneratingReader.on_cdata (cmdsproc.py 820-829). -/
def onCdata (st : PodState) (cdata : String) : PodState :=
  let cdata := wsCollapse (podQuote st cdata)
  if st.paragraph = [] then
    let cdata := pyLstrip cdata
    if cdata = "" then st
    else
      let st := if st.pre_depth = 0 then spool st "Z<>" else st
      spool st cdata
  else spool st cdata

/-- PodGeneratingReader.on_usage_start: a Name section holding
"program - summary". -/
def onUsageStart (st : PodState) (program summary : String) :
    Except String PodState := do
  let st ← head1 st "Name"
  let st := onCdata st (program ++ " - " ++ summary)
  .ok (flushParagraph st)

/-- PodGeneratingReader.on_command_start: resolve the first comma-
separated name, open the "<name> command" section and write the verbose
synopsis. -/
def onCommandStart (ctx : PodCtx) (st : PodState) (names : String) :
    Except String PodState := do
  let nameList := (splitComma names).map pyStrip
  match assocFind ctx.commands (nameList.headD "") with
  | none => .error "KeyError: commands"
  | some command =>
    let st := { st with current_command := some command }
    let st ← head1 st (sectionTitleForCommand command)
    .ok (writeCommandSynopsis st command true)

/-- PodGeneratingReader.on_command_end (cmdsproc.py 997-1023): the
back-reference sentence to the shared optgroup sections, suppressed in
full-optgroups mode. -/
def onCommandEnd (ctx : PodCtx) (st : PodState) : Except String PodState :=
  let st := flushParagraph st
  match st.current_command with
  | none => .error "AttributeError: current_command"
  | some command =>
    let nonlocal_options : List (OptGroup' × String) :=
      command.optgroups.flatMap (fun og =>
        if ¬ og.og_private then
          og.options.flatMap (fun o =>
            (match o.short with
             | some ch => [(og, "-" ++ String.singleton ch)]
             | none => []) ++ [(og, "--" ++ o.long)])
        else [])
    let fmt_nlo := fun (x : OptGroup' × String) =>
      "L<" ++ ("B<" ++ podQuote st x.2 ++ ">") ++ "|/" ++
        sectionTitleForOptgroup x.1 ++ ">"
    let st :=
      if ctx.full_optgroups then st
      else
        match nonlocal_options with
        | [] => st
        | [x] =>
          podCommand st ("The " ++ fmt_nlo x ++ " option is described above.")
        | x :: y :: rest =>
          match (x :: y :: rest).getLast? with
          | some lastOpt =>
            podCommand st ("The " ++
              String.intercalate ", " (((x :: y :: rest).dropLast).map fmt_nlo) ++
              ", and " ++ fmt_nlo lastOpt ++ " options are described above.")
          | none => st
    .ok { st with current_command := none }

/-- PodGeneratingReader.on_optgroup_reference_start: in full-optgroups
mode, inline the optgroup section's previously buffered contents. -/
def onOptgroupRefStart (ctx : PodCtx) (st : PodState) (name : String) :
    Except String PodState :=
  if ctx.full_optgroups then
    match assocFind ctx.optgroups name with
    | none => .error "KeyError: optgroups"
    | some og =>
      match dictLookup st.section_contents (sectionTitleForOptgroup og) with
      | none => .error "KeyError: section_contents"
      | some none => .error "TypeError: write of None"
      | some (some contents) => .ok (bwWrite st contents)
  else .ok st

/-- The event alphabet of the walker: one constructor per handler of
PodGeneratingReader, carrying the attributes the handler reads. -/
inductive PodEvent where
  | cdata (s : String)
  | usageStart (program summary : String)
  | usageEnd
  | sectionStart (name : String)
  | sectionEnd
  | synopsisStart
  | synopsisEnd
  | bStart | bEnd | iStart | iEnd | ttStart | ttEnd
  | optgroupStart (name : String)
  | optgroupEnd
  | optionStart (short : Option String) (long : String) (arg : Option String)
  | optionEnd
  | vspaceStart
  | vspaceEnd
  | commandStart (names : String)
  | commandEnd
  | argumentStart (name : String)
  | argumentEnd
  | optgroupRefStart (name : String)
  | optgroupRefEnd
  | ulStart | ulEnd | liStart | liEnd
  | dlStart | dlEnd | dtStart | dtEnd | ddStart | ddEnd
  | preStart | preEnd
deriving DecidableEq

/-- One walker event dispatch (the on_*_start / on_*_end handlers of
PodGeneratingReader, cmdsproc.py 820-1083). -/
def podStep (ctx : PodCtx) (st : PodState) : PodEvent → Except String PodState
  | .cdata s => .ok (onCdata st s)
  | .usageStart p s => onUsageStart st p s
  | .usageEnd => .ok (flushSectionBuffer (flushParagraph st))
  | .sectionStart name => head1 st name
  | .sectionEnd => .ok (flushParagraph st)
  | .synopsisStart =>
    let st := ctx.commands.foldl (fun st p => writeCommandSynopsis st p.2 false) st
    .ok (podCommand st "See command-specific sections below for details.")
  | .synopsisEnd => .ok st
  | .bStart => .ok (spool st "B<")
  | .bEnd => .ok (spool st ">")
  | .iStart => .ok (spool st "I<")
  | .iEnd => .ok (spool st ">")
  | .ttStart => .ok (spool st "C<")
  | .ttEnd => .ok (spool st ">")
  | .optgroupStart name =>
    match assocFind ctx.optgroups name with
    | none => .error "KeyError: optgroups"
    | some og => do
      let st ← if ¬ og.og_private then head1 st (sectionTitleForOptgroup og)
               else .ok st
      .ok (podCommand st "=over")
  | .optgroupEnd => .ok (podCommand st "=back")
  | .optionStart short long arg =>
    .ok (podCommand st ("=item " ++ optionLabel st short long arg))
  | .optionEnd => .ok (flushParagraph st)
  | .vspaceStart => .ok (podCommand st "Z<>")
  | .vspaceEnd => .ok st
  | .commandStart names => onCommandStart ctx st names
  | .commandEnd => onCommandEnd ctx st
  | .argumentStart name =>
    let st := flushParagraph st
    let st := podCommand st "=over"
    .ok (podCommand st ("=item I<" ++ podQuote st name ++ ">"))
  | .argumentEnd => .ok (podCommand st "=back")
  | .optgroupRefStart name => onOptgroupRefStart ctx st name
  | .optgroupRefEnd => .ok st
  | .ulStart => .ok (podCommand st "=over")
  | .ulEnd => .ok (podCommand st "=back")
  | .liStart => .ok (podCommand st "=item *")
  | .liEnd => .ok st
  | .dlStart => .ok (podCommand st "=over")
  | .dlEnd => .ok (podCommand st "=back")
  | .dtStart => .ok (spool (flushParagraph st) "=item B<")
  | .dtEnd => .ok (flushParagraph (spool st ">"))
  | .ddStart => .ok (flushParagraph st)
  | .ddEnd => .ok (flushParagraph st)
  | .preStart =>
    let st := flushParagraph st
    .ok { st with pre_depth := st.pre_depth + 1 }
  | .preEnd =>
    let st := flushParagraph st
    .ok { st with pre_depth := st.pre_depth - 1 }

def runPod (ctx : PodCtx) : PodState → List PodEvent → Except String PodState
  | st, [] => .ok st
  | st, e :: rest =>
    match podStep ctx st e with
    | .ok st2 => runPod ctx st2 rest
    | .error msg => .error msg

/-- PodGeneratingReader.__init__: fresh state followed by the
"=encoding utf8" command. -/
def podInit : PodState :=
  podCommand
    { paragraph := [], pre_depth := 0, outMain := "", outBuf := none,
      section_contents := [], current_section := none, current_command := none }
    "=encoding utf8"

/-! ### Which sections the walker opens and closes

A head1 (hence a new section buffer) is produced by a section element,
a usage element (the Name section), a command element, and a shared
optgroup element; usage end closes the open section; nothing else
touches the section-contents map. -/

/-- The section title opened by an event, when it opens one. -/
def eventHead1Title (ctx : PodCtx) : PodEvent → Option String
  | .sectionStart n => some n
  | .usageStart _ _ => some "Name"
  | .commandStart names =>
    (assocFind ctx.commands (((splitComma names).map pyStrip).headD "")).map
      sectionTitleForCommand
  | .optgroupStart n =>
    match assocFind ctx.optgroups n with
    | some og => if ¬ og.og_private then some (sectionTitleForOptgroup og) else none
    | none => none
  | _ => none

/-- Specification step: the new open section and the titles closed (and
hence entered into the section-contents map) by one event. -/
def stepSpec (ctx : PodCtx) (cur : Option String) (e : PodEvent) :
    Option String × List String :=
  if e = .usageEnd then (none, cur.toList)
  else
    match eventHead1Title ctx e with
    | some t => (some t, cur.toList)
    | none => (cur, [])

/-- All titles closed while processing the events, given the initially
open section. -/
def closedAux (ctx : PodCtx) : Option String → List PodEvent → List String
  | _, [] => []
  | cur, e :: rest =>
    (stepSpec ctx cur e).2 ++ closedAux ctx (stepSpec ctx cur e).1 rest

/-- The open section after processing the events. -/
def specCur (ctx : PodCtx) : Option String → List PodEvent → Option String
  | cur, [] => cur
  | cur, e :: rest => specCur ctx (stepSpec ctx cur e).1 rest

/-- The titles whose sections are closed during a pass started on a
fresh walker. -/
def closedSectionTitles (ctx : PodCtx) (events : List PodEvent) : List String :=
  closedAux ctx none events

/-- The state components governing the section-contents invariant. -/
def sameSec (a b : PodState) : Prop :=
  a.current_section = b.current_section ∧
  a.section_contents = b.section_contents ∧
  a.outBuf.isSome = b.outBuf.isSome

theorem sameSec_refl (a : PodState) : sameSec a a := ⟨rfl, rfl, rfl⟩

theorem sameSec_trans {a b c : PodState} (h1 : sameSec a b) (h2 : sameSec b c) :
    sameSec a c :=
  ⟨h1.1.trans h2.1, h1.2.1.trans h2.2.1, h1.2.2.trans h2.2.2⟩

theorem bwWrite_sameSec (st : PodState) (s : String) : sameSec (bwWrite st s) st := by
  cases h : st.outBuf <;> simp [bwWrite, h, sameSec]

theorem spool_sameSec (st : PodState) (s : String) : sameSec (spool st s) st := by
  simp [spool, sameSec]

theorem update_paragraph_sameSec (st : PodState) (p : List String) :
    sameSec { st with paragraph := p } st := ⟨rfl, rfl, rfl⟩

theorem update_pre_sameSec (st : PodState) (d : Int) :
    sameSec { st with pre_depth := d } st := ⟨rfl, rfl, rfl⟩

theorem update_cc_sameSec (st : PodState) (v : Option Command') :
    sameSec { st with current_command := v } st := ⟨rfl, rfl, rfl⟩

theorem flushParagraph_sameSec (st : PodState) : sameSec (flushParagraph st) st := by
  simp only [flushParagraph]
  split
  · refine sameSec_trans (bwWrite_sameSec _ _) (sameSec_trans (bwWrite_sameSec _ _) ?_)
    split
    · exact sameSec_trans (bwWrite_sameSec _ _) (update_paragraph_sameSec _ _)
    · exact update_paragraph_sameSec _ _
  · exact update_paragraph_sameSec _ _

theorem podCommand_sameSec (st : PodState) (s : String) :
    sameSec (podCommand st s) st :=
  sameSec_trans (flushParagraph_sameSec _)
    (sameSec_trans (spool_sameSec _ _) (flushParagraph_sameSec _))

theorem onCdata_sameSec (st : PodState) (s : String) : sameSec (onCdata st s) st := by
  simp only [onCdata]
  split
  · split
    · exact sameSec_refl st
    · refine sameSec_trans (spool_sameSec _ _) ?_
      split
      · exact spool_sameSec _ _
      · exact sameSec_refl st
  · exact spool_sameSec _ _

theorem writeCommandSynopsis_sameSec (st : PodState) (c : Command') (v : Bool) :
    sameSec (writeCommandSynopsis st c v) st := by
  simp only [writeCommandSynopsis]
  exact podCommand_sameSec _ _

theorem synopsisFold_sameSec (cmds : List (String × Command')) : ∀ st : PodState,
    sameSec (cmds.foldl (fun st p => writeCommandSynopsis st p.2 false) st) st := by
  induction cmds with
  | nil =>
    intro st
    exact sameSec_refl st
  | cons c cs ih =>
    intro st
    rw [List.foldl_cons]
    exact sameSec_trans (ih _) (writeCommandSynopsis_sameSec _ _ _)

/-! Dictionary lemmas. -/

theorem dictLookup_isSome_iff {m : List (String × Option String)} {t : String} :
    (dictLookup m t).isSome = true ↔ ∃ p ∈ m, p.1 = t := by
  induction m with
  | nil => simp [dictLookup]
  | cons x xs ih =>
    by_cases h : x.1 = t
    · rw [dictLookup, List.find?_cons_of_pos _ (by simpa using h)]
      simp only [Option.map_some', Option.isSome_some, true_iff]
      exact ⟨x, by simp, h⟩
    · rw [dictLookup, List.find?_cons_of_neg _ (by simpa using h)]
      rw [show ((xs.find? fun p => p.1 = t).map fun p => p.2) = dictLookup xs t from rfl]
      rw [ih]
      constructor
      · rintro ⟨p, hp, hpt⟩
        exact ⟨p, by simp [hp], hpt⟩
      · rintro ⟨p, hp, hpt⟩
        rcases List.mem_cons.mp hp with rfl | hp2
        · exact absurd hpt h
        · exact ⟨p, hp2, hpt⟩

theorem dictInsert_hasKey {m : List (String × Option String)} {k t : String}
    {v : Option String} :
    (dictLookup (dictInsert m k v) t).isSome = true ↔
      ((dictLookup m t).isSome = true ∨ t = k) := by
  rw [dictLookup_isSome_iff, dictLookup_isSome_iff]
  unfold dictInsert
  by_cases hx : (m.any fun p => p.1 = k) = true
  · rw [if_pos hx]
    constructor
    · rintro ⟨p, hp, hpt⟩
      obtain ⟨q, hq, hqp⟩ := List.mem_map.mp hp
      by_cases hqk : q.1 = k
      · rw [if_pos hqk] at hqp
        subst hqp
        simp only at hpt
        right
        exact hpt.symm
      · rw [if_neg hqk] at hqp
        subst hqp
        exact Or.inl ⟨q, hq, hpt⟩
    · rintro (⟨p, hp, hpt⟩ | rfl)
      · by_cases hpk : p.1 = k
        · refine ⟨(k, v), List.mem_map.mpr ⟨p, hp, by rw [if_pos hpk]⟩, ?_⟩
          simp only
          rw [← hpk, hpt]
        · exact ⟨p, List.mem_map.mpr ⟨p, hp, by rw [if_neg hpk]⟩, hpt⟩
      · obtain ⟨q, hq, hqt⟩ := List.any_eq_true.mp hx
        refine ⟨(t, v), List.mem_map.mpr ⟨q, hq, ?_⟩, rfl⟩
        have hqt' : q.1 = t := by simpa using hqt
        rw [if_pos hqt']
  · rw [if_neg hx]
    constructor
    · rintro ⟨p, hp, hpt⟩
      rcases List.mem_append.mp hp with hp1 | hp2
      · exact Or.inl ⟨p, hp1, hpt⟩
      · obtain rfl : p = (k, v) := by simpa using hp2
        right
        exact hpt.symm
    · rintro (⟨p, hp, hpt⟩ | rfl)
      · exact ⟨p, List.mem_append.mpr (Or.inl hp), hpt⟩
      · exact ⟨(t, v), List.mem_append.mpr (Or.inr (by simp)), rfl⟩

/-! Section-effect lemmas. -/

theorem flushSectionBuffer_of_none {st : PodState}
    (h : (flushParagraph st).current_section = none) :
    flushSectionBuffer st = flushParagraph st := by
  simp only [flushSectionBuffer]
  rw [h]

theorem flushSectionBuffer_of_some {st : PodState} {name b : String}
    (h : (flushParagraph st).current_section = some name)
    (hb : (flushParagraph st).outBuf = some b) :
    flushSectionBuffer st =
      { bwWrite { flushParagraph st with outBuf := none } b with
          current_section := none,
          section_contents :=
            dictInsert
              (bwWrite { flushParagraph st with outBuf := none } b).section_contents
              name (some b) } := by
  simp only [flushSectionBuffer, obEndFlush]
  rw [h, hb]

theorem flushSectionBuffer_sec (st : PodState)
    (hsync : st.outBuf.isSome = st.current_section.isSome) :
    (flushSectionBuffer st).current_section = none ∧
    (flushSectionBuffer st).outBuf = none ∧
    ∀ t, ((dictLookup (flushSectionBuffer st).section_contents t).isSome = true ↔
      ((dictLookup st.section_contents t).isSome = true ∨
        t ∈ st.current_section.toList)) := by
  obtain ⟨f1, f2, f3⟩ := flushParagraph_sameSec st
  cases hcs : (flushParagraph st).current_section with
  | none =>
    have hcs0 : st.current_section = none := f1 ▸ hcs
    rw [flushSectionBuffer_of_none hcs]
    have hbuf : (flushParagraph st).outBuf = none := by
      cases hb : (flushParagraph st).outBuf with
      | none => rfl
      | some b =>
        have hfalse : (flushParagraph st).outBuf.isSome = false := by
          rw [f3, hsync, hcs0]
          rfl
        rw [hb] at hfalse
        exact absurd hfalse (by simp)
    refine ⟨hcs, hbuf, ?_⟩
    intro t
    rw [f2, hcs0]
    simp
  | some name =>
    have hcs0 : st.current_section = some name := f1 ▸ hcs
    have hbufs : (flushParagraph st).outBuf.isSome = true := by
      rw [f3, hsync, hcs0]
      rfl
    cases hb : (flushParagraph st).outBuf with
    | none =>
      rw [hb] at hbufs
      exact absurd hbufs (by simp)
    | some b =>
      rw [flushSectionBuffer_of_some hcs hb]
      obtain ⟨w1, w2, w3⟩ :=
        bwWrite_sameSec { flushParagraph st with outBuf := none } b
      refine ⟨rfl, ?_, ?_⟩
      · cases hbw : (bwWrite { flushParagraph st with outBuf := none } b).outBuf with
        | none => rfl
        | some b2 =>
          have hfalse : (bwWrite { flushParagraph st with outBuf := none } b).outBuf.isSome
              = false := by
            rw [w3]
            rfl
          rw [hbw] at hfalse
          exact absurd hfalse (by simp)
      · intro t
        simp only [dictInsert_hasKey]
        rw [show (bwWrite { flushParagraph st with outBuf := none } b).section_contents
            = st.section_contents from w2.trans f2]
        rw [hcs0]
        simp

theorem head1_sec {st st' : PodState} {title : String}
    (hok : head1 st title = .ok st')
    (hsync : st.outBuf.isSome = st.current_section.isSome) :
    st'.outBuf.isSome = st'.current_section.isSome ∧
    st'.current_section = some title ∧
    ∀ t, ((dictLookup st'.section_contents t).isSome = true ↔
      ((dictLookup st.section_contents t).isSome = true ∨
        t ∈ st.current_section.toList)) := by
  obtain ⟨h1, h2, h3⟩ := flushSectionBuffer_sec st hsync
  simp only [head1] at hok
  set pc := podCommand (flushSectionBuffer st)
    ("=head1 " ++ pyUpper (podQuote (flushSectionBuffer st) title)) with hpc
  obtain ⟨p1, p2, p3⟩ : sameSec pc (flushSectionBuffer st) := podCommand_sameSec _ _
  clear_value pc
  have hc1 : ¬ (pc.current_section.isSome = true) := by
    rw [p1.trans h1]
    simp
  have hc2 : ¬ (({ pc with current_section := some title } : PodState).outBuf.isSome
      = true) := by
    have hrfl : ({ pc with current_section := some title } : PodState).outBuf
        = pc.outBuf := rfl
    rw [hrfl, p3, h2]
    simp
  unfold startSectionBuffer at hok
  rw [if_neg hc1] at hok
  unfold obStart at hok
  rw [if_neg hc2] at hok
  simp only [Except.ok.injEq] at hok
  subst hok
  refine ⟨rfl, rfl, ?_⟩
  intro t
  show (dictLookup pc.section_contents t).isSome = true ↔ _
  rw [p2]
  exact h3 t

/-! Per-event effect on the section data. -/

theorem stepSpec_none {ctx : PodCtx} {cur : Option String} {e : PodEvent}
    (hne : ¬ e = .usageEnd) (ht : eventHead1Title ctx e = none) :
    stepSpec ctx cur e = (cur, []) := by
  rw [stepSpec, if_neg hne, ht]

theorem stepSpec_open {ctx : PodCtx} {cur : Option String} {e : PodEvent}
    {t : String} (hne : ¬ e = .usageEnd) (ht : eventHead1Title ctx e = some t) :
    stepSpec ctx cur e = (some t, cur.toList) := by
  rw [stepSpec, if_neg hne, ht]

theorem ebind_error {β : Type} (m : String) (f : PodState → Except String β) :
    ((Except.error m : Except String PodState) >>= f) = .error m := rfl

theorem ebind_ok {β : Type} (a : PodState) (f : PodState → Except String β) :
    ((Except.ok a : Except String PodState) >>= f) = f a := rfl

theorem pure_step_conclusion {ctx : PodCtx} {st st' : PodState} {e : PodEvent}
    (hs : sameSec st' st)
    (hsync : st.outBuf.isSome = st.current_section.isSome)
    (hne : ¬ e = .usageEnd) (ht : eventHead1Title ctx e = none) :
    st'.outBuf.isSome = st'.current_section.isSome ∧
    st'.current_section = (stepSpec ctx st.current_section e).1 ∧
    ∀ t, ((dictLookup st'.section_contents t).isSome = true ↔
      ((dictLookup st.section_contents t).isSome = true ∨
        t ∈ (stepSpec ctx st.current_section e).2)) := by
  obtain ⟨s1, s2, s3⟩ := hs
  rw [stepSpec_none hne ht]
  refine ⟨by rw [s3, hsync, s1], s1, ?_⟩
  intro t
  rw [s2]
  simp

theorem open_step_conclusion {ctx : PodCtx} {st st' : PodState} {e : PodEvent}
    {title : String}
    (hne : ¬ e = .usageEnd) (ht : eventHead1Title ctx e = some title)
    (hsy : st'.outBuf.isSome = st'.current_section.isSome)
    (hcs : st'.current_section = some title)
    (hk : ∀ t, ((dictLookup st'.section_contents t).isSome = true ↔
      ((dictLookup st.section_contents t).isSome = true ∨
        t ∈ st.current_section.toList))) :
    st'.outBuf.isSome = st'.current_section.isSome ∧
    st'.current_section = (stepSpec ctx st.current_section e).1 ∧
    ∀ t, ((dictLookup st'.section_contents t).isSome = true ↔
      ((dictLookup st.section_contents t).isSome = true ∨
        t ∈ (stepSpec ctx st.current_section e).2)) := by
  rw [stepSpec_open hne ht]
  exact ⟨hsy, hcs, hk⟩

theorem onCommandEnd_sameSec {ctx : PodCtx} {st st' : PodState}
    (hok : onCommandEnd ctx st = .ok st') : sameSec st' st := by
  simp only [onCommandEnd] at hok
  cases hcc : (flushParagraph st).current_command with
  | none =>
    rw [hcc] at hok
    have hok2 : (Except.error "AttributeError: current_command" :
        Except String PodState) = .ok st' := hok
    exact absurd hok2 (by simp)
  | some command =>
    rw [hcc] at hok
    simp only [Except.ok.injEq] at hok
    subst hok
    refine sameSec_trans (update_cc_sameSec _ _) ?_
    split
    · exact flushParagraph_sameSec st
    · split
      · exact flushParagraph_sameSec st
      · exact sameSec_trans (podCommand_sameSec _ _) (flushParagraph_sameSec st)
      · split
        · exact sameSec_trans (podCommand_sameSec _ _) (flushParagraph_sameSec st)
        · exact flushParagraph_sameSec st

theorem stepSpec_usageEnd (ctx : PodCtx) (cur : Option String) :
    stepSpec ctx cur .usageEnd = (none, cur.toList) := by
  rw [stepSpec, if_pos rfl]

theorem podStep_section {ctx : PodCtx} {st st' : PodState} {e : PodEvent}
    (hok : podStep ctx st e = .ok st')
    (hsync : st.outBuf.isSome = st.current_section.isSome) :
    st'.outBuf.isSome = st'.current_section.isSome ∧
    st'.current_section = (stepSpec ctx st.current_section e).1 ∧
    ∀ t, ((dictLookup st'.section_contents t).isSome = true ↔
      ((dictLookup st.section_contents t).isSome = true ∨
        t ∈ (stepSpec ctx st.current_section e).2)) := by
  cases e with
  | cdata s =>
    simp only [podStep, Except.ok.injEq] at hok
    subst hok
    exact pure_step_conclusion (onCdata_sameSec _ _) hsync (by simp) rfl
  | usageStart p s =>
    simp only [podStep, onUsageStart] at hok
    cases hh : head1 st "Name" with
    | error m =>
      rw [hh, ebind_error] at hok
      exact absurd hok (by simp)
    | ok st1 =>
      rw [hh, ebind_ok] at hok
      obtain rfl : flushParagraph (onCdata st1 (p ++ " - " ++ s)) = st' := by
        simpa using hok
      obtain ⟨q1, q2, q3⟩ := head1_sec hh hsync
      have hsm : sameSec (flushParagraph (onCdata st1 (p ++ " - " ++ s))) st1 :=
        sameSec_trans (flushParagraph_sameSec _) (onCdata_sameSec _ _)
      exact open_step_conclusion (by simp) rfl
        (by rw [hsm.2.2, hsm.1]; exact q1) (hsm.1.trans q2)
        (fun t => by rw [hsm.2.1]; exact q3 t)
  | usageEnd =>
    simp only [podStep, Except.ok.injEq] at hok
    subst hok
    obtain ⟨f1, f2, f3⟩ := flushParagraph_sameSec st
    have hsync2 : (flushParagraph st).outBuf.isSome
        = (flushParagraph st).current_section.isSome := by
      rw [f3, f1]; exact hsync
    obtain ⟨q1, q2, q3⟩ := flushSectionBuffer_sec (flushParagraph st) hsync2
    rw [stepSpec_usageEnd]
    refine ⟨by rw [q2, q1], q1, ?_⟩
    intro t
    have hq := q3 t
    rw [f2, f1] at hq
    exact hq
  | sectionStart name =>
    simp only [podStep] at hok
    obtain ⟨q1, q2, q3⟩ := head1_sec hok hsync
    exact open_step_conclusion (by simp) rfl q1 q2 q3
  | sectionEnd =>
    simp only [podStep, Except.ok.injEq] at hok
    subst hok
    exact pure_step_conclusion (flushParagraph_sameSec _) hsync (by simp) rfl
  | synopsisStart =>
    simp only [podStep, Except.ok.injEq] at hok
    subst hok
    exact pure_step_conclusion
      (sameSec_trans (podCommand_sameSec _ _) (synopsisFold_sameSec _ _))
      hsync (by simp) rfl
  | synopsisEnd =>
    simp only [podStep, Except.ok.injEq] at hok
    subst hok
    exact pure_step_conclusion (sameSec_refl _) hsync (by simp) rfl
  | bStart =>
    simp only [podStep, Except.ok.injEq] at hok
    subst hok
    exact pure_step_conclusion (spool_sameSec _ _) hsync (by simp) rfl
  | bEnd =>
    simp only [podStep, Except.ok.injEq] at hok
    subst hok
    exact pure_step_conclusion (spool_sameSec _ _) hsync (by simp) rfl
  | iStart =>
    simp only [podStep, Except.ok.injEq] at hok
    subst hok
    exact pure_step_conclusion (spool_sameSec _ _) hsync (by simp) rfl
  | iEnd =>
    simp only [podStep, Except.ok.injEq] at hok
    subst hok
    exact pure_step_conclusion (spool_sameSec _ _) hsync (by simp) rfl
  | ttStart =>
    simp only [podStep, Except.ok.injEq] at hok
    subst hok
    exact pure_step_conclusion (spool_sameSec _ _) hsync (by simp) rfl
  | ttEnd =>
    simp only [podStep, Except.ok.injEq] at hok
    subst hok
    exact pure_step_conclusion (spool_sameSec _ _) hsync (by simp) rfl
  | optgroupStart name =>
    simp only [podStep] at hok
    cases hfind : assocFind ctx.optgroups name with
    | none =>
      rw [hfind] at hok
      have hok2 : (Except.error "KeyError: optgroups" :
          Except String PodState) = .ok st' := hok
      exact absurd hok2 (by simp)
    | some og =>
      rw [hfind] at hok
      have hok2 : (if ¬ og.og_private = true then
          (head1 st (sectionTitleForOptgroup og) >>=
            fun st1 => Except.ok (podCommand st1 "=over"))
          else (Except.ok st >>=
            fun st1 => Except.ok (podCommand st1 "=over"))) = .ok st' := hok
      by_cases hp : og.og_private = true
      · rw [if_neg (not_not_intro hp), ebind_ok] at hok2
        obtain rfl : podCommand st "=over" = st' := by simpa using hok2
        exact pure_step_conclusion (podCommand_sameSec _ _) hsync (by simp)
          (by simp only [eventHead1Title]; rw [hfind]
              exact if_neg (not_not_intro hp))
      · rw [if_pos hp] at hok2
        cases hh : head1 st (sectionTitleForOptgroup og) with
        | error m =>
          rw [hh, ebind_error] at hok2
          exact absurd hok2 (by simp)
        | ok st1 =>
          rw [hh, ebind_ok] at hok2
          obtain rfl : podCommand st1 "=over" = st' := by simpa using hok2
          obtain ⟨q1, q2, q3⟩ := head1_sec hh hsync
          obtain ⟨m1, m2, m3⟩ := podCommand_sameSec st1 "=over"
          exact open_step_conclusion (by simp)
            (by simp only [eventHead1Title]; rw [hfind]; exact if_pos hp)
            (by rw [m3, m1]; exact q1) (m1.trans q2)
            (fun t => by rw [m2]; exact q3 t)
  | optgroupEnd =>
    simp only [podStep, Except.ok.injEq] at hok
    subst hok
    exact pure_step_conclusion (podCommand_sameSec _ _) hsync (by simp) rfl
  | optionStart short long arg =>
    simp only [podStep, Except.ok.injEq] at hok
    subst hok
    exact pure_step_conclusion (podCommand_sameSec _ _) hsync (by simp) rfl
  | optionEnd =>
    simp only [podStep, Except.ok.injEq] at hok
    subst hok
    exact pure_step_conclusion (flushParagraph_sameSec _) hsync (by simp) rfl
  | vspaceStart =>
    simp only [podStep, Except.ok.injEq] at hok
    subst hok
    exact pure_step_conclusion (podCommand_sameSec _ _) hsync (by simp) rfl
  | vspaceEnd =>
    simp only [podStep, Except.ok.injEq] at hok
    subst hok
    exact pure_step_conclusion (sameSec_refl _) hsync (by simp) rfl
  | commandStart names =>
    simp only [podStep, onCommandStart] at hok
    cases hfind : assocFind ctx.commands (((splitComma names).map pyStrip).headD "")
      with
    | none =>
      rw [hfind] at hok
      have hok2 : (Except.error "KeyError: commands" :
          Except String PodState) = .ok st' := hok
      exact absurd hok2 (by simp)
    | some command =>
      rw [hfind] at hok
      have hok2 : (head1 { st with current_command := some command }
          (sectionTitleForCommand command) >>=
          fun st1 => Except.ok (writeCommandSynopsis st1 command true))
          = .ok st' := hok
      cases hh : head1 { st with current_command := some command }
          (sectionTitleForCommand command) with
      | error m =>
        rw [hh, ebind_error] at hok2
        exact absurd hok2 (by simp)
      | ok st1 =>
        rw [hh, ebind_ok] at hok2
        obtain rfl : writeCommandSynopsis st1 command true = st' := by
          simpa using hok2
        have hsync2 : ({ st with current_command := some command } :
            PodState).outBuf.isSome
            = ({ st with current_command := some command } :
            PodState).current_section.isSome := hsync
        obtain ⟨q1, q2, q3⟩ := head1_sec hh hsync2
        obtain ⟨w1, w2, w3⟩ := writeCommandSynopsis_sameSec st1 command true
        exact open_step_conclusion (by simp)
          (by simp only [eventHead1Title]; rw [hfind]; rfl)
          (by rw [w3, w1]; exact q1) (w1.trans q2)
          (fun t => by rw [w2]; exact q3 t)
  | commandEnd =>
    simp only [podStep] at hok
    exact pure_step_conclusion (onCommandEnd_sameSec hok) hsync (by simp) rfl
  | argumentStart name =>
    simp only [podStep, Except.ok.injEq] at hok
    subst hok
    exact pure_step_conclusion
      (sameSec_trans (podCommand_sameSec _ _)
        (sameSec_trans (podCommand_sameSec _ _) (flushParagraph_sameSec _)))
      hsync (by simp) rfl
  | argumentEnd =>
    simp only [podStep, Except.ok.injEq] at hok
    subst hok
    exact pure_step_conclusion (podCommand_sameSec _ _) hsync (by simp) rfl
  | optgroupRefStart name =>
    simp only [podStep, onOptgroupRefStart] at hok
    by_cases hfo : ctx.full_optgroups = true
    · rw [if_pos hfo] at hok
      cases hfind : assocFind ctx.optgroups name with
      | none =>
        rw [hfind] at hok
        have hok2 : (Except.error "KeyError: optgroups" :
            Except String PodState) = .ok st' := hok
        exact absurd hok2 (by simp)
      | some og =>
        rw [hfind] at hok
        have hok1 : (match dictLookup st.section_contents
              (sectionTitleForOptgroup og) with
          | none => Except.error "KeyError: section_contents"
          | some none => Except.error "TypeError: write of None"
          | some (some contents) => Except.ok (bwWrite st contents))
            = .ok st' := hok
        cases hdl : dictLookup st.section_contents (sectionTitleForOptgroup og)
          with
        | none =>
          rw [hdl] at hok1
          have hok2 : (Except.error "KeyError: section_contents" :
              Except String PodState) = .ok st' := hok1
          exact absurd hok2 (by simp)
        | some v =>
          cases v with
          | none =>
            rw [hdl] at hok1
            have hok2 : (Except.error "TypeError: write of None" :
                Except String PodState) = .ok st' := hok1
            exact absurd hok2 (by simp)
          | some contents =>
            rw [hdl] at hok1
            have hok2 : Except.ok (bwWrite st contents) = .ok st' := hok1
            obtain rfl : bwWrite st contents = st' := by simpa using hok2
            exact pure_step_conclusion (bwWrite_sameSec _ _) hsync (by simp) rfl
    · rw [if_neg hfo] at hok
      obtain rfl : st = st' := by simpa using hok
      exact pure_step_conclusion (sameSec_refl _) hsync (by simp) rfl
  | optgroupRefEnd =>
    simp only [podStep, Except.ok.injEq] at hok
    subst hok
    exact pure_step_conclusion (sameSec_refl _) hsync (by simp) rfl
  | ulStart =>
    simp only [podStep, Except.ok.injEq] at hok
    subst hok
    exact pure_step_conclusion (podCommand_sameSec _ _) hsync (by simp) rfl
  | ulEnd =>
    simp only [podStep, Except.ok.injEq] at hok
    subst hok
    exact pure_step_conclusion (podCommand_sameSec _ _) hsync (by simp) rfl
  | liStart =>
    simp only [podStep, Except.ok.injEq] at hok
    subst hok
    exact pure_step_conclusion (podCommand_sameSec _ _) hsync (by simp) rfl
  | liEnd =>
    simp only [podStep, Except.ok.injEq] at hok
    subst hok
    exact pure_step_conclusion (sameSec_refl _) hsync (by simp) rfl
  | dlStart =>
    simp only [podStep, Except.ok.injEq] at hok
    subst hok
    exact pure_step_conclusion (podCommand_sameSec _ _) hsync (by simp) rfl
  | dlEnd =>
    simp only [podStep, Except.ok.injEq] at hok
    subst hok
    exact pure_step_conclusion (podCommand_sameSec _ _) hsync (by simp) rfl
  | dtStart =>
    simp only [podStep, Except.ok.injEq] at hok
    subst hok
    exact pure_step_conclusion
      (sameSec_trans (spool_sameSec _ _) (flushParagraph_sameSec _))
      hsync (by simp) rfl
  | dtEnd =>
    simp only [podStep, Except.ok.injEq] at hok
    subst hok
    exact pure_step_conclusion
      (sameSec_trans (flushParagraph_sameSec _) (spool_sameSec _ _))
      hsync (by simp) rfl
  | ddStart =>
    simp only [podStep, Except.ok.injEq] at hok
    subst hok
    exact pure_step_conclusion (flushParagraph_sameSec _) hsync (by simp) rfl
  | ddEnd =>
    simp only [podStep, Except.ok.injEq] at hok
    subst hok
    exact pure_step_conclusion (flushParagraph_sameSec _) hsync (by simp) rfl
  | preStart =>
    simp only [podStep, Except.ok.injEq] at hok
    subst hok
    exact pure_step_conclusion
      (sameSec_trans (update_pre_sameSec _ _) (flushParagraph_sameSec _))
      hsync (by simp) rfl
  | preEnd =>
    simp only [podStep, Except.ok.injEq] at hok
    subst hok
    exact pure_step_conclusion
      (sameSec_trans (update_pre_sameSec _ _) (flushParagraph_sameSec _))
      hsync (by simp) rfl

theorem runPod_section_spec (ctx : PodCtx) :
    ∀ (events : List PodEvent) (st st' : PodState),
    runPod ctx st events = .ok st' →
    st.outBuf.isSome = st.current_section.isSome →
    st'.outBuf.isSome = st'.current_section.isSome ∧
    st'.current_section = specCur ctx st.current_section events ∧
    ∀ t, ((dictLookup st'.section_contents t).isSome = true ↔
      ((dictLookup st.section_contents t).isSome = true ∨
        t ∈ closedAux ctx st.current_section events))
  | [], st, st', hok, hsync => by
    obtain rfl : st = st' := by simpa [runPod] using hok
    exact ⟨hsync, rfl, fun t => by simp [closedAux]⟩
  | e :: rest, st, st', hok, hsync => by
    simp only [runPod] at hok
    cases hstep : podStep ctx st e with
    | error m =>
      rw [hstep] at hok
      have hok2 : (Except.error m : Except String PodState) = .ok st' := hok
      exact absurd hok2 (by simp)
    | ok st1 =>
      rw [hstep] at hok
      have hok2 : runPod ctx st1 rest = .ok st' := hok
      obtain ⟨p1, p2, p3⟩ := podStep_section hstep hsync
      obtain ⟨r1, r2, r3⟩ := runPod_section_spec ctx rest st1 st' hok2 p1
      refine ⟨r1, ?_, ?_⟩
      · rw [r2, p2]
        rfl
      · intro t
        rw [r3 t, p3 t, p2]
        simp only [closedAux, List.mem_append]
        exact or_assoc

/-! ### C1: which sections reach the section-contents map -/

/-- Documentation pass over the file that declares one command, "hello",
and nothing else; the pass runs in full-optgroups mode. -/
def witPodCtx : PodCtx :=
  { optgroups := [], commands := [("hello", mkCommand "hello" "hello" [] false)],
    full_optgroups := true }

/-- A file whose root is the command element, followed by a plain
section: the command section is closed by the section that follows it. -/
def witPodEvents : List PodEvent :=
  [.commandStart "hello", .commandEnd, .sectionStart "More"]

/-- The walker state after the pass over witPodEvents. -/
def witPodFinal : PodState :=
  (runPod witPodCtx podInit witPodEvents).toOption.getD podInit

/-- C1 (amended). After a successful documentation pass the
section-contents map holds an entry exactly for each section that was
closed during the pass — closed by the head1 of a following section,
command or shared optgroup, or by the end of a usage element.  The title
of a section that is still open when the event stream ends (possible
when the document root is not the usage element, which the ingest layer
permits) is absent from the map, contrary to the original claim's
"including the last section opened in the file". -/
theorem section_contents_entries (ctx : PodCtx) (events : List PodEvent)
    (st' : PodState) (hok : runPod ctx podInit events = .ok st') :
    ∀ t, ((dictLookup st'.section_contents t).isSome = true ↔
      t ∈ closedSectionTitles ctx events) := by
  have hsync : podInit.outBuf.isSome = podInit.current_section.isSome := rfl
  obtain ⟨r1, r2, r3⟩ := runPod_section_spec ctx events podInit st' hok hsync
  intro t
  rw [r3 t]
  have hsc : podInit.section_contents = [] := rfl
  have hcur : podInit.current_section = none := rfl
  rw [hsc, hcur, closedSectionTitles]
  simp [dictLookup]

/-- C1 witness: on the concrete pass witPodEvents the run succeeds and
the "hello command" section — closed by the following section — is in
the map, as the amended statement requires. -/
theorem section_contents_entries_witness :
    runPod witPodCtx podInit witPodEvents = .ok witPodFinal ∧
    ((dictLookup witPodFinal.section_contents "hello command").isSome = true ↔
      "hello command" ∈ closedSectionTitles witPodCtx witPodEvents) :=
  ⟨by rfl,
   section_contents_entries witPodCtx witPodEvents witPodFinal (by rfl)
     "hello command"⟩

/-- C1 counterexample to the original claim: a valid declarations file
whose root is the command element itself.  The pass completes
successfully, a command element was encountered, yet the map has no
entry under "hello command": the last section opened is never flushed
when nothing closes it. -/
theorem section_contents_entries_counterexample :
    (runPod witPodCtx podInit [.commandStart "hello", .commandEnd]).toOption.map
      (fun st => dictLookup st.section_contents "hello command") = some none := by
  rfl

/-! ### C3: what a vspace element emits -/

theorem bwWrite_paragraph (st : PodState) (s : String) :
    (bwWrite st s).paragraph = st.paragraph := by
  simp only [bwWrite]
  split <;> rfl

theorem flushParagraph_paragraph (st : PodState) :
    (flushParagraph st).paragraph = [] := by
  simp only [flushParagraph]
  split
  · rw [bwWrite_paragraph, bwWrite_paragraph]
    split
    · rw [bwWrite_paragraph]
    · rfl
  · rfl

theorem flushParagraph_drop (st : PodState)
    (h : ¬(¬ pyStrip (wsCollapse (String.join st.paragraph)) = "" ∧
      ¬ pyStrip (wsCollapse (String.join st.paragraph)) = "Z<>")) :
    flushParagraph st = { st with paragraph := [] } := by
  simp only [flushParagraph]
  rw [if_neg h]

theorem set_paragraph_nil {st : PodState} (h : st.paragraph = []) :
    { st with paragraph := ([] : List String) } = st := by
  rw [← h]

/-- The lone Z marker spooled by on_vspace_start is discarded by
flush_paragraph's text != "Z<>" test. -/
theorem podCommand_z (st : PodState) : podCommand st "Z<>" = flushParagraph st := by
  rw [podCommand]
  have hp : (flushParagraph st).paragraph = [] := flushParagraph_paragraph st
  have hsp : spool (flushParagraph st) "Z<>"
      = { flushParagraph st with paragraph := ["Z<>"] } := by
    rw [spool, hp]
    rfl
  rw [hsp]
  rw [flushParagraph_drop _ (by
    intro hcon
    exact hcon.2 (show pyStrip (wsCollapse (String.join ["Z<>"])) = "Z<>" from
      by decide))]
  exact set_paragraph_nil hp

/-- C3 (amended). A vspace element emits nothing: on_vspace_start runs
command("Z<>"), but flush_paragraph discards a paragraph whose collapsed
text equals the bare marker "Z<>", so the handler only flushes the
pending paragraph and the marker itself never reaches the output,
contrary to the original claim that "Z<>" is emitted as its own
paragraph. -/
theorem vspace_marker (ctx : PodCtx) (st : PodState) :
    podStep ctx st .vspaceStart = .ok (flushParagraph st) := by
  simp only [podStep]
  rw [podCommand_z]

/-- C3 counterexample to the original claim: a vspace element processed
on a fresh walker leaves the state unchanged and the output holds no
"Z<>" at all. -/
theorem vspace_marker_counterexample :
    (runPod { optgroups := [], commands := [], full_optgroups := true }
        podInit [.vspaceStart, .vspaceEnd] = .ok podInit) ∧
    hasSubChars podInit.outMain.data "Z<>".data = false :=
  ⟨by rfl, by decide⟩

/-! ### C2: character data inside a pre block -/

/-- C2 (amended). While pre_depth is positive the markup-specials
escape is indeed disabled (quote returns its input unchanged, leaving
<, >, |, / as they are), but the run's whitespace is not preserved:
on_cdata collapses every whitespace run to a single space
unconditionally before spooling, whether or not the walker is inside a
pre block, contrary to the original claim that whitespace is preserved
verbatim. -/
theorem pre_cdata (st : PodState) (s : String) (hpre : 0 < st.pre_depth) :
    podQuote st s = s ∧
    onCdata st s =
      (if st.paragraph = [] then
        (if pyLstrip (wsCollapse s) = "" then st
         else spool st (pyLstrip (wsCollapse s)))
       else spool st (wsCollapse s)) := by
  have hq : podQuote st s = s := by
    rw [podQuote]
    exact if_pos hpre
  refine ⟨hq, ?_⟩
  simp only [onCdata, hq]
  by_cases hpar : st.paragraph = []
  · rw [if_pos hpar, if_pos hpar]
    by_cases hemp : pyLstrip (wsCollapse s) = ""
    · rw [if_pos hemp, if_pos hemp]
    · rw [if_neg hemp, if_neg hemp]
      have hnz : ¬ st.pre_depth = 0 := by omega
      rw [if_neg hnz]
  · rw [if_neg hpar, if_neg hpar]

/-- A walker state one level inside a pre block. -/
def witPreState : PodState :=
  { paragraph := [], pre_depth := 1, outMain := "", outBuf := none,
    section_contents := [], current_section := none, current_command := none }

/-- C2 witness: inside a pre block the markup specials of "a<b" are left
unescaped while its spooled form is wsCollapse-processed. -/
theorem pre_cdata_witness :
    (0 : Int) < witPreState.pre_depth ∧
    (podQuote witPreState "a<b" = "a<b" ∧
      onCdata witPreState "a<b" =
        (if witPreState.paragraph = [] then
          (if pyLstrip (wsCollapse "a<b") = "" then witPreState
           else spool witPreState (pyLstrip (wsCollapse "a<b")))
         else spool witPreState (wsCollapse "a<b"))) :=
  ⟨by decide, pre_cdata witPreState "a<b" (by decide)⟩

/-- C2 counterexample to the original claim: processing the run "a\nb"
inside a pre block succeeds, yet the output nowhere contains the
verbatim run — its newline was collapsed to a space. -/
theorem pre_cdata_counterexample :
    ((runPod { optgroups := [], commands := [], full_optgroups := true } podInit
      [.preStart, .cdata "a\nb", .preEnd]).toOption.map
        (fun st => hasSubChars st.outMain.data "a\nb".data)) = some false ∧
    wsCollapse "a\nb" = "a b" :=
  ⟨by rfl, by rfl⟩
